import Mathlib

/-!
# ShellShield — formal verification of the command analyzer

A shallow embedding, in Lean 4, of the ShellShield command analyzer
(`src/parser/analyzer.ts` and the modules it reaches), together with
theorems settling the specification claims about it.

Conventions of the embedding:

* JavaScript strings are modelled by `String` / `List Char`; `.length`
  counts code points (the repository only ever compares lengths of ASCII
  strings against the bound `MAX_INPUT_LENGTH`, where the two notions
  agree).
* External collaborators (the `shell-quote` tokenizer, the JS `RegExp`
  engine, `process.env`, the shell-context snapshot file and the
  `git status` subprocess) are modelled as oracle functions collected in
  the `Oracles` structure; everything written in the repository itself is
  translated as executable Lean definitions.
* Fallible JS code (`try`/`catch` around `new URL`, `new RegExp`,
  `execSync`) is modelled with `Option`.
-/

set_option maxHeartbeats 1000000

namespace ShellShield

/-! ## Character and string helpers (JS string primitives) -/

/-- ASCII lowercasing, as JS `toLowerCase` behaves on the ASCII range
(the only range exercised in this development). -/
def jsLowerChar (c : Char) : Char := Char.toLower c

/-- Lowercase every character of a list. -/
def lowerL (l : List Char) : List Char := l.map jsLowerChar

/-- `listStartsWith pat s`: does `s` start with `pat`? -/
def listStartsWith : List Char → List Char → Bool
  | [], _ => true
  | _ :: _, [] => false
  | p :: ps, c :: cs => p = c && listStartsWith ps cs

/-- Substring containment on character lists (JS `String.includes`). -/
def containsSub : List Char → List Char → Bool
  | [], pat => listStartsWith pat []
  | c :: cs, pat => listStartsWith pat (c :: cs) || containsSub cs pat

/-- JS `s.includes(pat)`. -/
def strIncludes (s pat : String) : Bool := containsSub s.data pat.data

/-- JS `s.startsWith(pat)`. -/
def strStarts (s pat : String) : Bool := listStartsWith pat.data s.data

/-- JS `s.endsWith(pat)`. -/
def strEnds (s pat : String) : Bool := listStartsWith pat.data.reverse s.data.reverse

/-- The suffix after the first occurrence of `pat`, if any. -/
def afterSub (pat : List Char) : List Char → Option (List Char)
  | [] => if pat.isEmpty then some [] else none
  | l@(_ :: rest) =>
    if listStartsWith pat l then some (l.drop pat.length) else afterSub pat rest

/-- Split a character list on a separator character (JS `split(sep)` for a
one-character separator). -/
def splitOnCharL (sep : Char) : List Char → List (List Char)
  | [] => [[]]
  | c :: cs =>
    let rest := splitOnCharL sep cs
    if c = sep then [] :: rest
    else match rest with
      | [] => [[c]]
      | h :: t => (c :: h) :: t

/-- JS `split(sep)` on strings, one-character separator. -/
def strSplitOnChar (sep : Char) (s : String) : List String :=
  (splitOnCharL sep s.data).map String.mk

/-- Last element of a split (JS `split(sep).pop()`), with `""` default. -/
def lastSegment (sep : Char) (s : String) : String :=
  (strSplitOnChar sep s).getLast? |>.getD ""

/-- JS whitespace test for the characters relevant here. -/
def isJsWs (c : Char) : Bool := c = ' ' || c = '\t' || c = '\n' || c = '\r'

/-- JS `String.trim`. -/
def strTrim (s : String) : String :=
  String.mk (((s.data.dropWhile isJsWs).reverse.dropWhile isJsWs).reverse)

/-- Drop every occurrence of a character (JS `replace(/x/g, "")`). -/
def removeChar (x : Char) (s : String) : String :=
  String.mk (s.data.filter (fun c => c ≠ x))

/-- Replace every occurrence of a character by another
(JS `replace(/x/g, "y")`). -/
def replaceCharAll (x y : Char) (s : String) : String :=
  String.mk (s.data.map (fun c => if c = x then y else c))

/-- Strip every trailing occurrence of a character
(JS `replace(/x+$/, "")`). -/
def stripTrailing (x : Char) (s : String) : String :=
  String.mk ((s.data.reverse.dropWhile (fun c => c = x)).reverse)

/-- Lowercase a string (JS `toLowerCase`, ASCII range). -/
def strLower (s : String) : String := String.mk (lowerL s.data)

/-- `(a ++ b).data = a.data ++ b.data`. -/
theorem strDataAppend (a b : String) : (a ++ b).data = a.data ++ b.data := rfl

/-! ## Token and decision types (`src/parser/types.ts`, `src/types.ts`) -/

/-- `ParsedEntry = string | { op: string }` — a token of the `shell-quote`
token stream. -/
inductive ParsedEntry where
  | word (s : String)
  | op (s : String)
deriving DecidableEq, Repr

/-- `isOperator(entry)`. -/
def isOperatorE : ParsedEntry → Bool
  | .op _ => true
  | .word _ => false

/-- `BlockResult`: either `{blocked:false}` or
`{blocked:true, reason, suggestion, rule?}` (`src/types.ts`). -/
inductive BlockResult where
  | ok
  | block (reason : String) (suggestion : String) (rule : Option String)
deriving DecidableEq, Repr

/-- The `blocked` field of a `BlockResult`. -/
def BlockResult.blockedB : BlockResult → Bool
  | .ok => false
  | .block _ _ _ => true

/-- The `reason` field (empty for `{blocked:false}`). -/
def BlockResult.reasonS : BlockResult → String
  | .ok => ""
  | .block r _ _ => r

/-- The `suggestion` field (empty for `{blocked:false}`). -/
def BlockResult.suggestionS : BlockResult → String
  | .ok => ""
  | .block _ s _ => s

/-- Shell-context snapshot entry kind (§4.4 of the spec). -/
inductive CtxKind where
  | alias
  | func
  | builtin
  | file
deriving DecidableEq, Repr

/-- Modelled from the spec: a `ShellContextEntry` of the shell-context
snapshot (`src/shell-context.ts` is not under `src/`; §3 and §4.4 describe
`kind ∈ {alias, function, builtin, file}`, `body`, `referencedTokens`). -/
structure ShellContextEntry where
  kind : CtxKind
  body : String
  referencedTokens : List String
deriving DecidableEq, Repr

/-- A user-configured custom rule `{pattern, suggestion}`. -/
structure CustomRuleCfg where
  pattern : String
  suggestion : String
deriving DecidableEq, Repr

/-- `Config` (`src/types.ts`); string sets are modelled as lists with
membership via `List.contains`. -/
structure Config where
  blocked : List String
  allowed : List String
  trustedDomains : List String
  threshold : Nat
  customRules : List CustomRuleCfg
  maxSubshellDepth : Nat
deriving Repr

/-! ## Constants (`src/constants.ts`) -/

/-- `DEFAULT_BLOCKED`. -/
def DEFAULT_BLOCKED : List String :=
  ["rm", "shred", "unlink", "wipe", "srm",
   "mkfs", "mkfs.ext4", "mkfs.xfs", "mkfs.btrfs", "mkfs.ntfs", "mkfs.fat", "mkfs.vfat",
   "fdisk", "parted", "gdisk", "cfdisk", "sfdisk",
   "dd", "blkid", "wipefs", "badblocks",
   "systemctl", "init", "shutdown", "reboot", "poweroff", "halt",
   "iptables", "ip6tables", "nft", "ufw",
   "su", "sudo", "doas", "pkexec",
   "userdel", "groupdel", "passwd", "chpasswd"]

/-- `SHELL_COMMANDS`. -/
def SHELL_COMMANDS : List String :=
  ["sh", "bash", "zsh", "dash", "fish", "pwsh", "powershell"]

/-- `CRITICAL_PATHS` (same entries in `src/constants.ts` and in the legacy
hook file that defines `isCriticalPath`). -/
def CRITICAL_PATHS : List String :=
  ["/", "/etc", "/usr", "/var", "/bin", "/sbin", "/lib", "/boot", "/root",
   "/dev", "/proc", "/sys",
   "c:/windows", "c:/windows/system32", "c:/program files",
   "c:/program files (x86)", "c:/users",
   "c:windows", "c:windowssystem32", "c:program files", "c:users"]

/-- `DEFAULT_TRUSTED_DOMAINS`. -/
def DEFAULT_TRUSTED_DOMAINS : List String :=
  ["github.com", "raw.githubusercontent.com", "get.docker.com",
   "sh.rustup.rs", "bun.sh", "install.python-poetry.org", "raw.github.com"]

/-- Modelled from the spec: `SYSTEMCTL_DESTRUCTIVE_SUBCOMMANDS` is imported
by the command checks but not defined under `src/`; §9 of the spec fixes it
as `{stop, disable, mask, reset-failed, isolate, kill}`. -/
def SYSTEMCTL_DESTRUCTIVE_SUBCOMMANDS : List String :=
  ["stop", "disable", "mask", "reset-failed", "isolate", "kill"]

/-- The default configuration assembled by `toConfig` when a partial context
supplies no overrides (`src/parser/analyzer.ts`). -/
def defaultConfig : Config :=
  { blocked := DEFAULT_BLOCKED
    allowed := []
    trustedDomains := DEFAULT_TRUSTED_DOMAINS
    threshold := 50
    customRules := []
    maxSubshellDepth := 5 }

/-! ## Bounded regex guard (`src/security/patterns.ts`) -/

/-- `MAX_INPUT_LENGTH = 10000`. -/
def MAX_INPUT_LENGTH : Nat := 10000

/-- `safeRegexTest(pattern, input)`: a regex test guarded by the input
bound.  The regex itself is external (JS `RegExp`), therefore it enters as
the function argument `test`. -/
def safeRegexTest (test : String → Bool) (input : String) : Bool :=
  if input.length > MAX_INPUT_LENGTH then false else test input

/-! ## Raw-threat pattern table (`src/parser/rules/RawThreatRule.ts`) -/

/-- Names for the fifteen compiled regexes the `RawThreatRule` tests, in
declaration order.  The regexes themselves live in the JS `RegExp` engine
and are supplied by the `ptest` oracle. -/
inductive RTPat where
  | encodedCommand
  | evalWithCurl
  | evalWithWget
  | evalBacktickCurl
  | evalBacktickWget
  | substDollarDownload
  | substBacktickDownload
  | base64ToShell
  | xxdToShell
  | downloadToInterp
  | sedToShell
  | awkToShell
  | procSubStandard
  | opensslToShell
  | tarToShell
deriving DecidableEq, Repr

/-- One entry of the `RawThreatRule` pattern table. -/
structure RTEntry where
  pat : RTPat
  reason : String
  suggestion : String
deriving DecidableEq, Repr

/-- The ordered pattern table of `RawThreatRule` (reasons and suggestions
verbatim from the source). -/
def rawThreatPatterns : List RTEntry :=
  [⟨.encodedCommand, "ENCODED POWERSHELL COMMAND DETECTED",
    "Encoded PowerShell payloads are high-risk. Decode and review before running."⟩,
   ⟨.evalWithCurl, "EVAL-PIPE-TO-SHELL DETECTED",
    "Avoid eval with remote content. Download and review the script first."⟩,
   ⟨.evalWithWget, "EVAL-PIPE-TO-SHELL DETECTED",
    "Avoid eval with remote content. Download and review the script first."⟩,
   ⟨.evalBacktickCurl, "EVAL-PIPE-TO-SHELL DETECTED",
    "Avoid eval with remote content. Download and review the script first."⟩,
   ⟨.evalBacktickWget, "EVAL-PIPE-TO-SHELL DETECTED",
    "Avoid eval with remote content. Download and review the script first."⟩,
   ⟨.substDollarDownload, "COMMAND SUBSTITUTION DETECTED",
    "Executing remote scripts via command substitution is dangerous."⟩,
   ⟨.substBacktickDownload, "COMMAND SUBSTITUTION DETECTED",
    "Executing remote scripts via command substitution is dangerous."⟩,
   ⟨.base64ToShell, "ENCODED PIPE-TO-SHELL DETECTED",
    "Decoding remote content and piping to a shell is dangerous."⟩,
   ⟨.xxdToShell, "ENCODED PIPE-TO-SHELL DETECTED",
    "Decoding remote content and piping to a shell is dangerous."⟩,
   ⟨.downloadToInterp, "PIPE-TO-INTERPRETER DETECTED",
    "Piping remote content to an interpreter is dangerous. Download and review first."⟩,
   ⟨.sedToShell, "SED-PIPE-TO-SHELL DETECTED",
    "Piping sed output to a shell can be dangerous. Review the command carefully."⟩,
   ⟨.awkToShell, "AWK-PIPE-TO-SHELL DETECTED",
    "Piping awk output to a shell can be dangerous. Review the command carefully."⟩,
   ⟨.procSubStandard, "PROCESS SUBSTITUTION DETECTED",
    "Process substitution with remote content is dangerous."⟩,
   ⟨.opensslToShell, "OPENSSL-PIPE-TO-SHELL DETECTED",
    "Piping openssl output to a shell is suspicious. Review carefully."⟩,
   ⟨.tarToShell, "TAR-PIPE-TO-SHELL DETECTED",
    "Piping tar output to a shell is dangerous. Extract first, then review."⟩]

/-! ## Oracles for external collaborators -/

/-- The external collaborators of the analyzer, as oracle functions:

* `parse` — the `shell-quote` tokenizer (`none` models a thrown parse
  error);
* `ptest` — the JS `RegExp` engine evaluating the raw-threat patterns;
* `subshellCMatches` — the number of matches of the bounded
  `/(sh|bash|…)\s{0,10}-c/gi` regex in the raw command;
* `destructiveVerb` — the `/\b(rm|shred|unlink|wipe|srm|dd)\b/i` test;
* `compileRegex` — JS `new RegExp` for user patterns (`none` models a
  thrown syntax error, caught and skipped by the source);
* `env` — `process.env`;
* `home` — `homedir()`;
* `shellCtx` — the shell-context snapshot lookup (the snapshot reader
  itself is not under `src/`; its lookup result is the oracle);
* `gitStatus` — `execSync("git -C <dir> status --porcelain <name>")`
  stdout. -/
structure Oracles where
  parse : String → Option (List ParsedEntry)
  ptest : RTPat → String → Bool
  subshellCMatches : String → Nat
  destructiveVerb : String → Bool
  compileRegex : String → Option (String → Bool)
  env : String → Option String
  home : String
  shellCtx : String → Option ShellContextEntry
  gitStatus : String → String → String

/-- The shell-context lookup when no snapshot is configured. -/
def emptyShellCtx : String → Option ShellContextEntry := fun _ => none

/-! ## Parser utilities (`src/parser/utils.ts`) -/

/-- `normalizeCommandName(token)`: strip one leading backslash, normalize
backslashes to slashes, take the basename, lowercase. -/
def normalizeCommandName (token : String) : String :=
  if token = "" then ""
  else
    let stripped := if strStarts token "\\" then String.mk (token.data.drop 1) else token
    let normalized := replaceCharAll '\\' '/' stripped
    strLower (lastSegment '/' normalized)

/-- The variable map built from leading `K=V` assignments (JS object;
later inserts shadow earlier ones). -/
abbrev VarMap := List (String × String)

/-- Lookup in a `VarMap`. -/
def vmLookup (name : String) : VarMap → Option String
  | [] => none
  | (k, v) :: rest => if k = name then some v else vmLookup name rest

/-- Insert into a `VarMap`. -/
def vmInsert (k v : String) (m : VarMap) : VarMap := (k, v) :: m

/-- Character class `\w` (JS), i.e. `[A-Za-z0-9_]`. -/
def isWordChar (c : Char) : Bool :=
  ('a' ≤ c ∧ c ≤ 'z') || ('A' ≤ c ∧ c ≤ 'Z') || ('0' ≤ c ∧ c ≤ '9') || c = '_'

/-- First character of a JS identifier, `[a-zA-Z_]`. -/
def isIdentStart (c : Char) : Bool :=
  ('a' ≤ c ∧ c ≤ 'z') || ('A' ≤ c ∧ c ≤ 'Z') || c = '_'

/-- `vars[name] ?? process.env[name]`. -/
def rvValue (O : Oracles) (vars : VarMap) (name : String) : Option String :=
  match vmLookup name vars with
  | some v => some v
  | none => O.env name

/-- The replacement JS computes for one matched variable reference of
`resolveVariable` — the whole-match text is `matchText`:
with a `:-` fallback an empty value counts as unset; without one a defined
value (even empty) is used and an undefined one leaves the match text. -/
def rvReplacement (O : Oracles) (vars : VarMap) (name : String)
    (fallback : Option String) (matchText : String) : String :=
  match fallback with
  | some fb =>
    match rvValue O vars name with
    | some v => if v.length > 0 then v else fb
    | none => fb
  | none =>
    match rvValue O vars name with
    | some v => v
    | none => matchText

/-- Scanner for `resolveVariable`'s regex
`\$\{([^}:-]+)(?::-([^}]+))?\}|\$([a-zA-Z_][a-zA-Z0-9_]*)`:
at a `$`, try to read a braced or a simple reference; on failure the `$`
is literal and scanning resumes on the rest.  The `fuel` argument only
makes the recursion structural: every step consumes at least one input
character, so `input.length + 1` fuel never runs out. -/
def rvGo (O : Oracles) (vars : VarMap) : Nat → List Char → List Char
  | 0, l => l
  | _ + 1, [] => []
  | fuel + 1, '$' :: rest =>
    if rest.head? = some (Char.ofNat 123) then
      -- braced form `${NAME}` or `${NAME:-FALLBACK}`
      let afterBrace := rest.drop 1
      let nameChars := afterBrace.takeWhile
        (fun c => c ≠ Char.ofNat 125 ∧ c ≠ ':' ∧ c ≠ '-')
      let afterName := afterBrace.drop nameChars.length
      if nameChars.isEmpty then '$' :: rvGo O vars fuel rest
      else if afterName.head? = some (Char.ofNat 125) then
        let name := String.mk nameChars
        let matchText := String.mk ('$' :: Char.ofNat 123 :: nameChars ++ [Char.ofNat 125])
        (rvReplacement O vars name none matchText).data ++ rvGo O vars fuel (afterName.drop 1)
      else if listStartsWith [':', '-'] afterName then
        let fbChars := (afterName.drop 2).takeWhile (fun c => c ≠ Char.ofNat 125)
        let afterFb := (afterName.drop 2).drop fbChars.length
        if fbChars.isEmpty then '$' :: rvGo O vars fuel rest
        else if afterFb.head? = some (Char.ofNat 125) then
          let name := String.mk nameChars
          let matchText := String.mk
            ('$' :: Char.ofNat 123 :: nameChars ++ ':' :: '-' :: fbChars ++ [Char.ofNat 125])
          (rvReplacement O vars name (some (String.mk fbChars)) matchText).data
            ++ rvGo O vars fuel (afterFb.drop 1)
        else '$' :: rvGo O vars fuel rest
      else '$' :: rvGo O vars fuel rest
    else
      -- simple form `$NAME`
      match rest.head? with
      | some c =>
        if isIdentStart c then
          let nameChars := c :: (rest.drop 1).takeWhile isWordChar
          let afterName := rest.drop nameChars.length
          let name := String.mk nameChars
          let matchText := String.mk ('$' :: nameChars)
          (rvReplacement O vars name none matchText).data ++ rvGo O vars fuel afterName
        else '$' :: rvGo O vars fuel rest
      | none => ['$']
  | fuel + 1, c :: rest => c :: rvGo O vars fuel rest

/-- `resolveVariable(token, vars)` (`src/parser/utils.ts`, the variant the
unit tests pin down: a `:-` fallback wins over an empty value). -/
def resolveVariable (O : Oracles) (token : String) (vars : VarMap) : String :=
  if token = "" then "" else String.mk (rvGo O vars (token.data.length + 1) token.data)

/-- `filterFlags(args)`. -/
def filterFlags (args : List String) : List String :=
  args.filter (fun a => !(strStarts a "-"))

/-- `getTrashSuggestion(files)`. -/
def getTrashSuggestion (files : List String) : String :=
  if files.isEmpty then "trash <files>"
  else "trash " ++ String.intercalate " " files

/-! ## URL model

The source calls the WHATWG `new URL` parser (an external library).  The
model below covers exactly the `http`/`https` URLs this development
evaluates it on: scheme, optional userinfo, host, optional port, path. -/

/-- The suffix after the `http://` or `https://` scheme, if the string has
one; `none` models `new URL` rejecting the input (no scheme). -/
def jsUrlAfterScheme (s : String) : Option (List Char) :=
  if strStarts s "https://" then some (s.data.drop 8)
  else if strStarts s "http://" then some (s.data.drop 7)
  else none

/-- The authority component: everything up to the first `/`, `?` or `#`. -/
def jsUrlAuthority (s : String) : Option (List Char) :=
  (jsUrlAfterScheme s).map (List.takeWhile (fun c => c ≠ '/' ∧ c ≠ '?' ∧ c ≠ '#'))

/-- `new URL(s).hostname` (lowercased host, userinfo and port stripped);
`none` models a thrown `Invalid URL`. -/
def jsUrlHostname (s : String) : Option String :=
  match jsUrlAuthority s with
  | none => none
  | some auth =>
    let hostPort :=
      if auth.contains '@' then (auth.reverse.takeWhile (fun c => c ≠ '@')).reverse
      else auth
    let host := lowerL (hostPort.takeWhile (fun c => c ≠ ':'))
    if host.isEmpty then none else some (String.mk host)

/-- Whether `new URL(s)` yields a nonempty `username`/`password`
(the userinfo part before the last `@` of the authority is nonempty). -/
def jsUrlCreds (s : String) : Bool :=
  match jsUrlAuthority s with
  | none => false
  | some auth =>
    auth.contains '@' && !((auth.reverse.dropWhile (fun c => c ≠ '@')).drop 1).isEmpty

/-- `new URL(s).pathname` (path after the authority, `/` when absent). -/
def jsUrlPathname (s : String) : Option String :=
  match jsUrlAfterScheme s, jsUrlAuthority s with
  | some afterScheme, some auth =>
    let rest := afterScheme.drop auth.length
    let path := rest.takeWhile (fun c => c ≠ '?' ∧ c ≠ '#')
    some (if path.isEmpty then "/" else String.mk path)
  | _, _ => none

/-! ## Validators (`src/security/validators.ts`) -/

/-- Result of `checkTerminalInjection`. -/
structure TIResult where
  detected : Bool
  reason : Option String
deriving DecidableEq, Repr

/-- The zero-width / BOM character class `[​-‍﻿]`. -/
def isHiddenChar (c : Char) : Bool :=
  (Char.ofNat 0x200B ≤ c ∧ c ≤ Char.ofNat 0x200D) || c = Char.ofNat 0xFEFF

/-- `checkTerminalInjection(str)`: ESC `[` anywhere, else hidden
characters. -/
def checkTerminalInjection (s : String) : TIResult :=
  if containsSub s.data [Char.ofNat 0x1b, '['] then
    ⟨true, some "TERMINAL INJECTION DETECTED"⟩
  else if s.data.any isHiddenChar then
    ⟨true, some "HIDDEN CHARACTERS DETECTED"⟩
  else ⟨false, none⟩

/-- `isTrustedDomain(url, trustedDomains)`. -/
def isTrustedDomain (url : String) (trustedDomains : List String) : Bool :=
  match jsUrlHostname url with
  | none => false
  | some domain =>
    trustedDomains.any (fun trusted => domain = trusted || strEnds domain ("." ++ trusted))

/-- Script flags accumulated by `hasHomograph`'s per-character analysis
(the JS `Set` of script names). -/
structure Scripts where
  latin : Bool
  cyrillic : Bool
  greek : Bool
  other : Bool
deriving DecidableEq, Repr

/-- Number of distinct scripts seen (`scripts.size`). -/
def Scripts.size (s : Scripts) : Nat :=
  (if s.latin then 1 else 0) + (if s.cyrillic then 1 else 0)
    + (if s.greek then 1 else 0) + (if s.other then 1 else 0)

/-- `analyzeChar(char, scripts)`: classify one character; returns whether
it is a non-ASCII letter together with the updated script set. -/
def analyzeChar (c : Char) (s : Scripts) : Bool × Scripts :=
  if isHiddenChar c then (false, s)
  else
    let lower := jsLowerChar c
    if 'a' ≤ lower ∧ lower ≤ 'z' then (false, { s with latin := true })
    else if Char.ofNat 0x0400 ≤ c ∧ c ≤ Char.ofNat 0x04FF then
      (true, { s with cyrillic := true })
    else if Char.ofNat 0x0370 ≤ c ∧ c ≤ Char.ofNat 0x03FF then
      (true, { s with greek := true })
    else if c.toNat > 127 then (true, { s with other := true })
    else (false, s)

/-- The fold of `analyzeChar` over a hostname: script set, whether some
non-ASCII letter occurred, and the first such character. -/
def hostScan : List Char → Scripts → Bool → Option Char → Scripts × Bool × Option Char
  | [], s, non, first => (s, non, first)
  | c :: rest, s, non, first =>
    let (isNonAscii, s') := analyzeChar c s
    hostScan rest s' (non || isNonAscii)
      (if isNonAscii then (first.getD c |> some) else first)

/-- `getHostname(token)`: the part after the first `://` (or the whole
token), cut at the first `/` and then at the first `:`.  (JS takes
`split("://")[1]`, i.e. the segment before the next `://`; cutting at the
first `/` and `:` afterwards gives the same result, since `://` starts
with `:`.) -/
def getHostname (token : String) : String :=
  let base :=
    if strIncludes token "://" then
      match afterSub "://".data token.data with
      | some suffix => suffix
      | none => []
    else token.data
  String.mk ((base.takeWhile (fun c => c ≠ '/')).takeWhile (fun c => c ≠ ':'))

/-- `isSuspiciousHost(host)`: a dotted hostname with a non-ASCII letter
and mixed scripts. -/
def isSuspiciousHost (host : List Char) : Bool × Option Char :=
  if !host.contains '.' then (false, none)
  else
    let (scripts, hasNonAscii, first) := hostScan host ⟨false, false, false, false⟩ false none
    if hasNonAscii && ((scripts.latin && scripts.size > 1) || scripts.size > 1) then
      (true, first)
    else (false, none)

/-- Result of `hasHomograph`. -/
structure HGResult where
  detected : Bool
  char : Option String
  reason : Option String
deriving DecidableEq, Repr

/-- Characters allowed inside a URL match of
`/https?:\/\/[^\s"'`]{0,2000}/`. -/
def urlBodyChar (c : Char) : Bool :=
  !(isJsWs c || c = '"' || c = Char.ofNat 39 || c = Char.ofNat 96)

/-- All matches of `/https?:\/\/[^\s"'`]{0,2000}/g`: scan left to right,
match greedily, resume after each match.  `fuel` (list length + 1) only
makes the recursion structural; every step consumes at least one
character. -/
def extractUrls : Nat → List Char → List (List Char)
  | 0, _ => []
  | _ + 1, [] => []
  | fuel + 1, l@(_ :: rest) =>
    let scheme :=
      if listStartsWith "https://".data l then some 8
      else if listStartsWith "http://".data l then some 7
      else none
    match scheme with
    | some k =>
      let body := ((l.drop k).takeWhile urlBodyChar).take 2000
      (l.take k ++ body) :: extractUrls fuel (l.drop (k + body.length))
    | none => extractUrls fuel rest

/-- Whitespace-delimited dotted tokens, approximating the fallback
candidate regex `/\b[^\s]{1,253}\.[^\s]{1,253}\b/g` (a dot with
non-whitespace on both sides).  Only reached when the input contains no
`http(s)://` URL; every concrete input in this file contains one, so this
branch is exercised nowhere below. -/
def dottedCandidates (l : List Char) : List (List Char) :=
  ((splitOnCharL ' ' l).filter
    (fun t => t.length ≥ 3 && t.contains '.' && t.head? ≠ some '.'
      && t.getLast? ≠ some '.')).map id

/-- Check `isSuspiciousHost` over the candidate tokens, first hit wins. -/
def hgScan : List (List Char) → HGResult
  | [] => ⟨false, none, none⟩
  | token :: rest =>
    let host := getHostname (String.mk token)
    match isSuspiciousHost host.data with
    | (true, first) => ⟨true, first.map (fun c => String.mk [c]), none⟩
    | (false, _) => hgScan rest

/-- `hasHomograph(str)` (`src/security/validators.ts`). -/
def hasHomograph (s : String) : HGResult :=
  if s.length > MAX_INPUT_LENGTH then
    ⟨true, some "exceeds MAX_INPUT_LENGTH", some "INPUT_TOO_LONG"⟩
  else
    let urls := extractUrls (s.data.length + 1) s.data
    let candidates := if urls.isEmpty then dottedCandidates s.data else urls
    hgScan candidates

/-! ## Path checks (legacy hook file, `isCriticalPath` / `isSensitivePath`) -/

/-- `/^[a-z]:[^\/]/` — a drive letter not followed by a slash. -/
def driveMissingSlash (s : String) : Bool :=
  match s.data with
  | c0 :: c1 :: c2 :: _ => ('a' ≤ c0 ∧ c0 ≤ 'z') && c1 = ':' && c2 ≠ '/'
  | _ => false

/-- `normalized[0] + ":" + "/" + normalized.slice(2)`. -/
def driveFix (s : String) : String :=
  match s.data with
  | c0 :: _ :: rest => String.mk (c0 :: ':' :: '/' :: rest)
  | _ => s

/-- `/^[a-z]:$/` — a bare drive root. -/
def isDriveOnly (s : String) : Bool :=
  match s.data with
  | [c0, c1] => ('a' ≤ c0 ∧ c0 ≤ 'z') && c1 = ':'
  | _ => false

/-- The normalization pipeline of `isCriticalPath`: lowercase, backslashes
to slashes, insert the missing slash after a bare drive letter, strip
trailing slashes. -/
def cpNormalize (path : String) : String :=
  let n1 := replaceCharAll '\\' '/' (strLower path)
  let n2 := if driveMissingSlash n1 then driveFix n1 else n1
  stripTrailing '/' n2

/-- `isCriticalPath(path)` (legacy hook file, lines 287–301). -/
def isCriticalPath (path : String) : Bool :=
  let n := cpNormalize path
  if n = "" || n = "/" || isDriveOnly n then true
  else if CRITICAL_PATHS.contains n || CRITICAL_PATHS.contains (removeChar '/' n) then true
  else if n = ".git" || strEnds n "/.git" || strEnds n ".git" then true
  else false

/-- The `SENSITIVE_PATTERNS` tests: `/\/\.ssh\//`, `/\/\.bashrc$/`,
`/\/\.zshrc$/`, `/\/\.profile$/`, `/\/\.gitconfig$/`. -/
def sensitivePatternsTest (s : String) : Bool :=
  strIncludes s "/.ssh/" || strEnds s "/.bashrc" || strEnds s "/.zshrc"
    || strEnds s "/.profile" || strEnds s "/.gitconfig"

/-- `isSensitivePath(path)`: strip trailing slashes, expand a leading `~`
to the home directory, test the sensitive patterns. -/
def isSensitivePath (O : Oracles) (path : String) : Bool :=
  let normalized := stripTrailing '/' path
  let fullPath :=
    if strStarts normalized "~" then O.home ++ String.mk (normalized.data.drop 1)
    else normalized
  sensitivePatternsTest fullPath

/-! ## Git integration (`src/integrations/git.ts`) -/

/-- Node `path.dirname` for the absolute paths this code passes it. -/
def jsDirname (s : String) : String :=
  let r := (s.data.reverse.dropWhile (fun c => c ≠ '/')).drop 1
  if r.isEmpty then "/" else String.mk r.reverse

/-- Node `path.basename` for the absolute paths this code passes it. -/
def jsBasename (s : String) : String :=
  String.mk ((s.data.reverse.takeWhile (fun c => c ≠ '/')).reverse)

/-- The loop of `hasUncommittedChanges`; the second component counts the
`execSync` invocations (one `git status --porcelain` subprocess per
iteration that reaches it).  A throwing `execSync` is modelled by an
oracle returning `""` (the `catch` continues the loop either way). -/
def hucLoop (O : Oracles) : List String → List String × Nat
  | [] => ([], 0)
  | f :: rest =>
    let (rs, n) := hucLoop O rest
    if strStarts f "-" then (rs, n)
    else
      let dir := if strStarts f "/" then jsDirname f else "."
      let name := if strStarts f "/" then jsBasename f else f
      let status := strTrim (O.gitStatus dir name)
      if status ≠ "" then (f :: rs, n + 1) else (rs, n + 1)

/-- `hasUncommittedChanges(files)` together with its subprocess count. -/
def hasUncommittedChanges (O : Oracles) (files : List String) : List String × Nat :=
  if files.isEmpty then ([], 0) else hucLoop O files

/-! ## Pipe-to-shell checks (`src/parser/pipe-checks.ts`) -/

/-- `INSECURE_FLAGS`. -/
def INSECURE_FLAGS : List String := ["-k", "--insecure", "--no-check-certificate"]

/-- `CONTROL_OPERATORS` (shared by the pipe checks and `CoreAstRule`). -/
def CONTROL_OPERATORS : List String := ["&&", "||", ";", "&"]

/-- `checkUrlCredentials(args)`. -/
def checkUrlCredentials : List String → Option BlockResult
  | [] => none
  | arg :: rest =>
    if strIncludes arg "://" && strIncludes arg "@" then
      if jsUrlCreds arg then
        some (.block "CREDENTIAL EXPOSURE DETECTED"
          "Commands should not include credentials in URLs. Use environment variables or netrc." none)
      else checkUrlCredentials rest
    else checkUrlCredentials rest

/-- `checkTransportSecurity(args)`. -/
def checkTransportSecurity (args : List String) : Option BlockResult :=
  if args.any (fun arg => strStarts arg "http://") then
    some (.block "INSECURE TRANSPORT DETECTED"
      "Piping plain HTTP content to a shell is dangerous. Use HTTPS." none)
  else if args.any (fun arg => INSECURE_FLAGS.contains arg) then
    some (.block "INSECURE TRANSPORT DETECTED"
      "Piping to a shell with certificate validation disabled is extremely dangerous." none)
  else none

/-- Outcome of the inner scan of `getPipeTargets` after a pipe operator. -/
inductive PipeScan where
  | found (t : String)
  | stop
  | noWord
deriving DecidableEq, Repr

/-- The inner loop of `getPipeTargets`: from the entry after a pipe,
skip plain operators, stop the whole scan at a control operator, give up
at another pipe, take the first word. -/
def pipeNextWord : List ParsedEntry → PipeScan
  | [] => .noWord
  | .word w :: _ => .found (normalizeCommandName w)
  | .op o :: rest =>
    if CONTROL_OPERATORS.contains o then .stop
    else if o = "|" || o = "|&" then .noWord
    else pipeNextWord rest

/-- `getPipeTargets(remaining)`: the normalized first word after each
pipe operator, stopping at the first control operator. -/
def getPipeTargets : List ParsedEntry → List String
  | [] => []
  | .word _ :: rest => getPipeTargets rest
  | .op o :: rest =>
    if CONTROL_OPERATORS.contains o then []
    else if o = "|" || o = "|&" then
      match pipeNextWord rest with
      | .found t => t :: getPipeTargets rest
      | .stop => []
      | .noWord => getPipeTargets rest
    else getPipeTargets rest

/-- `getFirstUrlArg(args)`. -/
def getFirstUrlArg (args : List String) : Option String :=
  args.find? (fun arg => strStarts arg "https://" || strStarts arg "http://")

/-- `checkPipeToShell(args, remaining, trustedDomains)`. -/
def checkPipeToShell (args : List String) (remaining : List ParsedEntry)
    (trustedDomains : List String) : Option BlockResult :=
  match checkUrlCredentials args with
  | some b => some b
  | none =>
    let pipeTargets := getPipeTargets remaining
    if pipeTargets.isEmpty then none
    else if !pipeTargets.any (fun cmd => SHELL_COMMANDS.contains cmd) then none
    else
      match checkTransportSecurity args with
      | some b => some b
      | none =>
        let url := getFirstUrlArg args
        let isDirectShellPipe :=
          pipeTargets.length = 1
            && SHELL_COMMANDS.contains (pipeTargets.headD "")
        match url with
        | some u =>
          if isDirectShellPipe && isTrustedDomain u trustedDomains then none
          else
            some (.block "PIPE-TO-SHELL DETECTED"
              "Executing remote scripts directly via pipe is dangerous. Download and review the script first."
              none)
        | none =>
          some (.block "PIPE-TO-SHELL DETECTED"
            "Executing remote scripts directly via pipe is dangerous. Download and review the script first."
            none)

/-! ## Blocked-command and `find` checks (`src/parser/command-checks.ts`) -/

/-- `ADDITIONAL_DANGEROUS_COMMANDS`. -/
def ADDITIONAL_DANGEROUS_COMMANDS : List String := ["rm", "shred", "dd", "mkfs"]

/-- `EXECUTOR_COMMANDS`. -/
def EXECUTOR_COMMANDS : List String :=
  ["sh", "bash", "zsh", "dash", "fish", "pwsh", "powershell",
   "python", "python2", "python3", "perl", "ruby", "node", "bun", "php",
   ".", "source"]

/-- `checkGitIntegration(targetFiles)`. -/
def checkGitIntegration (O : Oracles) (targetFiles : List String) : Option BlockResult :=
  let uncommitted := (hasUncommittedChanges O targetFiles).1
  if uncommitted.length > 0 then
    some (.block "UNCOMMITTED CHANGES DETECTED"
      ("Commit changes to these files first: " ++ String.intercalate ", " uncommitted) none)
  else none

/-- `checkBlockedCommand(resolvedCmd, args, context)`. -/
def checkBlockedCommand (O : Oracles) (resolvedCmd : String) (args : List String)
    (blocked : List String) (threshold : Nat) : Option BlockResult :=
  if resolvedCmd = "dd" then
    if args.any (fun arg => strStarts (strLower arg) "of=") then
      some (.block "Destructive dd detected" "be careful with dd of=" none)
    else none
  else
    let mvcp : Option BlockResult :=
      if resolvedCmd = "mv" || resolvedCmd = "cp" then
        (args.find? (fun arg => !(strStarts arg "-") && isCriticalPath arg)).map
          (fun arg => .block "CRITICAL PATH TARGETED"
            ("Modifying critical system path " ++ arg ++ " is prohibited.") none)
      else none
    match mvcp with
    | some b => some b
    | none =>
      let chmodChk : Option BlockResult :=
        if resolvedCmd = "chmod" || resolvedCmd = "chown" || resolvedCmd = "chgrp" then
          let hasRecursive := args.any (fun arg =>
            arg = "-R" || arg = "--recursive"
              || (strStarts arg "-" && !(strStarts arg "--") && arg.data.contains 'R'))
          if hasRecursive then
            (args.find? (fun arg => !(strStarts arg "-") && isCriticalPath arg)).map
              (fun arg => .block "CRITICAL PATH TARGETED"
                ("Recursive " ++ resolvedCmd ++ " on critical system path " ++ arg
                  ++ " is prohibited.") none)
          else none
        else none
      match chmodChk with
      | some b => some b
      | none =>
        if resolvedCmd = "systemctl" then
          match args.find? (fun arg => !(strStarts arg "-")) with
          | some subcommand =>
            if SYSTEMCTL_DESTRUCTIVE_SUBCOMMANDS.contains (strLower subcommand) then
              some (.block ("Destructive systemctl " ++ subcommand ++ " detected")
                ("systemctl " ++ subcommand
                  ++ " can disrupt system services. Review before running.") none)
            else none
          | none => none
        else if !blocked.contains resolvedCmd then none
        else
          match args.find? (fun arg => !(strStarts arg "-") && isCriticalPath arg) with
          | some arg =>
            some (.block "CRITICAL PATH PROTECTED"
              ("Permanent deletion of " ++ arg ++ " is prohibited.") none)
          | none =>
            let targetFiles := filterFlags args
            if targetFiles.length > threshold then
              some (.block "VOLUME THRESHOLD EXCEEDED"
                ("You are trying to delete " ++ toString targetFiles.length
                  ++ " files. Use a more specific command.") none)
            else
              match checkGitIntegration O targetFiles with
              | some b => some b
              | none =>
                let suggestion :=
                  if resolvedCmd = "rm" && targetFiles.length > 0 then
                    getTrashSuggestion targetFiles
                  else getTrashSuggestion []
                some (.block ("Destructive command '" ++ resolvedCmd ++ "' detected")
                  suggestion none)

/-- `isDangerousExec(execCmd, dangerousCommands)`. -/
def isDangerousExec (execCmd : ParsedEntry) (dangerousCommands : List String) : Bool :=
  match execCmd with
  | .word w => dangerousCommands.contains (normalizeCommandName w)
  | .op _ => false

/-- The `-exec`/`-execdir`/`-ok` loop of `checkFindCommand`. -/
def findFlagLoop (remaining : List ParsedEntry) (dangerousCommands : List String) :
    List String → Option BlockResult
  | [] => none
  | flag :: restFlags =>
    let idx := remaining.findIdx? (fun e =>
      match e with
      | .word w => strLower w = flag
      | .op _ => false)
    match idx with
    | some i =>
      if i + 1 < remaining.length then
        match remaining[i + 1]? with
        | some e =>
          match e with
          | .word w =>
            if isDangerousExec (.word w) dangerousCommands then
              some (.block
                ("find " ++ flag ++ " " ++ w ++ " detected"
                  ++ (if flag = "-ok" then " - dangerous command" else ""))
                (getTrashSuggestion []) none)
            else findFlagLoop remaining dangerousCommands restFlags
          | .op _ => findFlagLoop remaining dangerousCommands restFlags
        | none => findFlagLoop remaining dangerousCommands restFlags
      else findFlagLoop remaining dangerousCommands restFlags
    | none => findFlagLoop remaining dangerousCommands restFlags

/-- `checkFindCommand(remaining, blockedCommands)`. -/
def checkFindCommand (remaining : List ParsedEntry) (blockedCommands : List String) :
    Option BlockResult :=
  let dangerousCommands :=
    blockedCommands ++ ADDITIONAL_DANGEROUS_COMMANDS ++ EXECUTOR_COMMANDS
  if remaining.any (fun e =>
      match e with
      | .word w => strLower w = "-delete"
      | .op _ => false) then
    some (.block "find -delete detected" (getTrashSuggestion []) none)
  else findFlagLoop remaining dangerousCommands ["-exec", "-execdir", "-ok"]

/-! ## Ghost instrumentation

Every recursive invocation of the analyzer is recorded as a pair
`(invoking depth, invoked depth)`; the list of such edges is returned next
to the `BlockResult` and is used only by the depth/termination claims. -/

/-- Recursion edges `(caller depth, callee depth)`. -/
abbrev GhostEdges := List (Nat × Nat)

/-! ## Subshell recursion helper (`src/parser/subshell.ts`, the `-c`-only
variant imported by `CoreAstRule`) -/

/-- `checkSubshellCommand(entries, startIndex, checkCommand)`. -/
def checkSubshellCommand (entries : List ParsedEntry) (startIndex : Nat)
    (rc : String → BlockResult × GhostEdges) : Option BlockResult × GhostEdges :=
  let remaining := entries.drop startIndex
  match remaining.findIdx? (fun e => e = .word "-c") with
  | none => (none, [])
  | some cIdx =>
    if startIndex + cIdx + 1 ≥ entries.length then (none, [])
    else
      match entries[startIndex + cIdx + 1]? with
      | some (.word subshellCmd) => (some (rc subshellCmd).1, (rc subshellCmd).2)
      | _ => (none, [])

/-! ## Shell-context override (modelled from the spec, §4.4; the snapshot
reader `src/shell-context.ts` is not under `src/`) -/

/-- Modelled from the spec: the first referenced token of the entry that
lies in the blocked set. -/
def findBlockedTokenInShellContext (e : ShellContextEntry) (blocked : List String) :
    Option String :=
  e.referencedTokens.find? (fun t => blocked.contains t)

/-- Spelling of a context kind in the override suggestion. -/
def ctxKindStr : CtxKind → String
  | .alias => "alias"
  | .func => "function"
  | .builtin => "builtin"
  | .file => "file"

/-! ## `CoreAstRule` (`src/parser/rules/CoreAstRule.ts`) -/

/-- `COMMAND_BOUNDARY_OPERATORS`. -/
def COMMAND_BOUNDARY_OPERATORS : List String := CONTROL_OPERATORS ++ ["|", "|&"]

/-- `REDIRECTION_OPERATORS`. -/
def REDIRECTION_OPERATORS : List String :=
  [">", ">>", "<", "<<", "<<<", "<>", "1>", "1>>", "2>", "2>>", "&>", ">&", "<&"]

/-- `DANGEROUS_DOWNLOAD_EXECUTORS`. -/
def DANGEROUS_DOWNLOAD_EXECUTORS : List String :=
  SHELL_COMMANDS
    ++ ["python", "python2", "python3", "perl", "ruby", "node", "bun", "php",
        ".", "source", "exec", "chmod"]

/-- The `PROCESS SUBSTITUTION DETECTED` decision built by `CoreAstRule`. -/
def procSubBlock : BlockResult :=
  .block "PROCESS SUBSTITUTION DETECTED"
    "Executing remote scripts via process substitution is dangerous." none

/-- `handleOperator(opEntry, nextEntry, vars)`. -/
def handleOperator (O : Oracles) (op : String) (nextEntry : Option ParsedEntry)
    (vars : VarMap) : Option BlockResult :=
  if op = "<(" then
    match nextEntry with
    | some (.word w) =>
      let normalizedNext := normalizeCommandName (resolveVariable O w vars)
      if normalizedNext = "curl" || normalizedNext = "wget" then some procSubBlock
      else none
    | _ => none
  else none

/-- `isCommandPrefix(entry)` — `sudo`, `xargs`, `command`, `env`. -/
def isCommandPrefixWord (entry : String) : Bool :=
  ["sudo", "xargs", "command", "env"].contains entry

/-- `isGitRm(nextEntry)`. -/
def isGitRm (nextEntry : Option ParsedEntry) : Bool :=
  match nextEntry with
  | some (.word w) => strLower w = "rm"
  | _ => false

/-- `sliceUntilOperators(entries, stopOperators)`. -/
def sliceUntilOperators : List ParsedEntry → List String → List ParsedEntry
  | [], _ => []
  | .op o :: rest, stop =>
    if stop.contains o then [] else .op o :: sliceUntilOperators rest stop
  | .word w :: rest, stop => .word w :: sliceUntilOperators rest stop

/-- The loop of `getCommandArgs` with its `skipNextForRedirection` state. -/
def getCommandArgsGo : Bool → List ParsedEntry → List String
  | _, [] => []
  | _, .op o :: rest => getCommandArgsGo (REDIRECTION_OPERATORS.contains o) rest
  | skip, .word w :: rest =>
    if skip then getCommandArgsGo false rest else w :: getCommandArgsGo false rest

/-- `getCommandArgs(entries)`: the words of a command segment, dropping
redirection targets. -/
def getCommandArgs (entries : List ParsedEntry) : List String :=
  getCommandArgsGo false entries

/-- `checkEnvironmentVariable(entry, vars)`: recognize a `NAME=value`
word (`/^\w+$/` key) and record it; returns the recognition flag and the
updated map. -/
def checkEnvironmentVariable (entry : String) (vars : VarMap) : Bool × VarMap :=
  if strIncludes entry "=" && !(strStarts entry "-") then
    match strSplitOnChar '=' entry with
    | [] => (false, vars)
    | key :: valParts =>
      if key ≠ "" ∧ key.data.all isWordChar then
        (true, vmInsert key (String.intercalate "=" valParts) vars)
      else (false, vars)
  else (false, vars)

/-- `checkSensitivePathWrite(entry, tokens, i)` — `next` is `tokens[i+1]`. -/
def checkSensitivePathWrite (O : Oracles) (entry : String)
    (next : Option ParsedEntry) : Option BlockResult :=
  let outputPath : Option String :=
    if entry = "-o" || entry = "-O" || entry = "--output" || entry = "--output-document" then
      match next with
      | some (.word w) => some w
      | _ => none
    else if strStarts entry "--output=" then some (String.mk (entry.data.drop 9))
    else if strStarts entry "--output-document=" then some (String.mk (entry.data.drop 18))
    else if strStarts entry "-o" && entry.length > 2 then some (String.mk (entry.data.drop 2))
    else if strStarts entry "-O" && entry.length > 2 then some (String.mk (entry.data.drop 2))
    else none
  match outputPath with
  | some p =>
    if p ≠ "" ∧ isSensitivePath O p then
      some (.block "SENSITIVE PATH TARGETED"
        ("Command is attempting to write directly to a critical configuration file: " ++ p)
        none)
    else none
  | none => none

/-- `extractExplicitOutputPath(arg, next, downloader)`. -/
structure ExplicitOut where
  handled : Bool
  consumeNext : Bool
  path : Option String
deriving DecidableEq, Repr

/-- `extractExplicitOutputPath` — explicit `-o`/`--output` (and for wget
`-O`/`--output-document`) output arguments. -/
def extractExplicitOutputPath (arg : String) (next : Option String)
    (downloader : String) : ExplicitOut :=
  if arg = "-o" || arg = "--output" then ⟨true, true, next⟩
  else if strStarts arg "-o" && arg.length > 2 then
    ⟨true, false, some (String.mk (arg.data.drop 2))⟩
  else if strStarts arg "--output=" then ⟨true, false, some (String.mk (arg.data.drop 9))⟩
  else if downloader = "wget" then
    if arg = "-O" || arg = "--output-document" then ⟨true, true, next⟩
    else if strStarts arg "-O" && arg.length > 2 then
      ⟨true, false, some (String.mk (arg.data.drop 2))⟩
    else if strStarts arg "--output-document=" then
      ⟨true, false, some (String.mk (arg.data.drop 18))⟩
    else ⟨false, false, none⟩
  else ⟨false, false, none⟩

/-- `isRemoteNameRequestedForCurl(arg)` — `-O`, `--remote-name`, or a
short-flag cluster (`/^-[A-Za-z]+$/`) containing `O`. -/
def isRemoteNameRequestedForCurl (arg : String) : Bool :=
  if arg = "-O" || arg = "--remote-name" then true
  else
    (match arg.data with
      | '-' :: cs =>
        !cs.isEmpty
          && cs.all (fun c => ('a' ≤ c ∧ c ≤ 'z') || ('A' ≤ c ∧ c ≤ 'Z'))
      | _ => false)
      && arg.data.contains 'O'

/-- `normalizePathLike(value)`: trim, strip one leading and one trailing
quote, backslashes to slashes, strip a leading `./`, strip trailing
slashes. -/
def normalizePathLike (value : String) : String :=
  let t := (strTrim value).data
  let l1 := match t with
    | c :: rest => if c = '"' ∨ c = Char.ofNat 39 then rest else t
    | [] => []
  let l2 := match l1.reverse with
    | c :: rest => if c = '"' ∨ c = Char.ofNat 39 then rest.reverse else l1
    | [] => []
  let l3 := l2.map (fun c => if c = '\\' then '/' else c)
  let l4 := match l3 with
    | '.' :: rest => if rest.head? = some '/' then rest.dropWhile (fun c => c = '/') else l3
    | _ => l3
  String.mk ((l4.reverse.dropWhile (fun c => c = '/')).reverse)

/-- `getPathBase(value)`. -/
def getPathBase (value : String) : String :=
  let normalized := replaceCharAll '\\' '/' value
  let b := lastSegment '/' normalized
  if b = "" then normalized else b

/-- `looksLikeHttpUrl(value)` (`/^https?:\/\//i`). -/
def looksLikeHttpUrl (value : String) : Bool :=
  strStarts (strLower value) "http://" || strStarts (strLower value) "https://"

/-- `isFilesystemTarget(path)`. -/
def isFilesystemTarget (path : String) : Bool :=
  let normalized := normalizePathLike path
  normalized.length > 0 && normalized ≠ "-" && normalized ≠ "/dev/stdout"

/-- `referencesAnyTarget(value, targets)`. -/
def referencesAnyTarget (value : String) (targets : List String) : Bool :=
  if value = "" || looksLikeHttpUrl value then false
  else
    let normalizedValue := normalizePathLike value
    targets.any (fun target =>
      let normalizedTarget := normalizePathLike target
      if normalizedTarget = "" then false
      else if normalizedValue = normalizedTarget then true
      else
        let valueBase := getPathBase normalizedValue
        let targetBase := getPathBase normalizedTarget
        valueBase ≠ "" && targetBase ≠ "" && valueBase = targetBase)

/-- Insert preserving first-insertion order (JS `Set.add`). -/
def listInsertUnique (acc : List String) (x : String) : List String :=
  if acc.contains x then acc else acc ++ [x]

/-- `getUrlBasenames(args)`: basenames of the path components of the URL
arguments (percent-decoding is modelled as the identity; no input below
contains an escape). -/
def getUrlBasenames (args : List String) : List String :=
  args.foldl (fun acc arg =>
    if looksLikeHttpUrl arg then
      match jsUrlPathname arg with
      | none => acc
      | some pathname =>
        let normalizedPath := stripTrailing '/' pathname
        let fileName := lastSegment '/' normalizedPath
        if fileName = "" then acc else listInsertUnique acc fileName
    else acc) []

/-- The loop of `extractDownloadTargets`: accumulated targets, the
`hasExplicitOutput` and `remoteNameRequested` flags. -/
def edtLoop (downloader : String) (acc : List String) (hasExpl remoteName : Bool) :
    List String → List String × Bool × Bool
  | [] => (acc, hasExpl, remoteName)
  | arg :: rest =>
    if arg = "" then edtLoop downloader acc hasExpl remoteName rest
    else
      let explicit := extractExplicitOutputPath arg rest.head? downloader
      if explicit.handled then
        let acc' :=
          match explicit.path with
          | some p => if p ≠ "" ∧ isFilesystemTarget p then listInsertUnique acc p else acc
          | none => acc
        let hasExpl' :=
          match explicit.path with
          | some p => if p ≠ "" then true else hasExpl
          | none => hasExpl
        if explicit.consumeNext then
          match rest with
          | [] => edtLoop downloader acc' hasExpl' remoteName []
          | _ :: rest2 => edtLoop downloader acc' hasExpl' remoteName rest2
        else edtLoop downloader acc' hasExpl' remoteName rest
      else
        let remoteName' :=
          remoteName || (downloader = "curl" && isRemoteNameRequestedForCurl arg)
        edtLoop downloader acc hasExpl remoteName' rest

/-- `extractDownloadTargets(commandArgs, downloader, vars)`. -/
def extractDownloadTargets (O : Oracles) (commandArgs : List String)
    (downloader : String) (vars : VarMap) : List String :=
  let resolvedArgs := commandArgs.map (fun arg => resolveVariable O arg vars)
  let (targets, hasExpl, remoteName) := edtLoop downloader [] false false resolvedArgs
  let urlBasenames := getUrlBasenames resolvedArgs
  let targets :=
    if downloader = "wget" && !hasExpl then urlBasenames.foldl listInsertUnique targets
    else targets
  if downloader = "curl" && remoteName then urlBasenames.foldl listInsertUnique targets
  else targets

/-- The token scan of `extractNextCommand`: skip `\w+=` assignments and
command prefixes, return the first real command word with its normalized
name and the following strings. -/
def encLoop : List String → Option (String × String × List String)
  | [] => none
  | token :: rest =>
    let isAssign :=
      let pre := token.data.takeWhile isWordChar
      !pre.isEmpty && (token.data.drop pre.length).head? = some '='
    if isAssign then encLoop rest
    else
      let normalized := normalizeCommandName token
      if isCommandPrefixWord normalized then encLoop rest
      else some (token, normalized, rest)

/-- `extractNextCommand(entries, vars)`. -/
def extractNextCommand (O : Oracles) (entries : List ParsedEntry) (vars : VarMap) :
    Option (String × String × List String) :=
  let segment := sliceUntilOperators entries CONTROL_OPERATORS
  let strings := (getCommandArgs segment).map (fun s => resolveVariable O s vars)
  if strings.isEmpty then none else encLoop strings

/-- The `DOWNLOAD-AND-EXEC DETECTED` decision. -/
def downloadExecBlock : BlockResult :=
  .block "DOWNLOAD-AND-EXEC DETECTED"
    "Downloading and executing a script in one command is dangerous. Review the script first."
    none

/-- `checkDownloadAndExec(remaining, commandArgs, downloader, vars)`. -/
def checkDownloadAndExec (O : Oracles) (remaining : List ParsedEntry)
    (commandArgs : List String) (downloader : String) (vars : VarMap) :
    Option BlockResult :=
  let downloadTargets := extractDownloadTargets O commandArgs downloader vars
  if downloadTargets.isEmpty then none
  else
    match remaining.findIdx? (fun e =>
        match e with
        | .op o => CONTROL_OPERATORS.contains o
        | .word _ => false) with
    | none => none
    | some opIdx =>
      match extractNextCommand O (remaining.drop (opIdx + 1)) vars with
      | none => none
      | some (token, name, cmdArgs) =>
        if referencesAnyTarget token downloadTargets then some downloadExecBlock
        else if !DANGEROUS_DOWNLOAD_EXECUTORS.contains name then none
        else if cmdArgs.any (fun arg => referencesAnyTarget arg downloadTargets) then
          some downloadExecBlock
        else none

/-- `handleCurlWget(normalizedEntry, remaining, commandSegment,
currentCommandEntries, config, vars)`. -/
def handleCurlWget (O : Oracles) (cfg : Config) (normalizedEntry : String)
    (remaining commandSegment currentCommandEntries : List ParsedEntry)
    (vars : VarMap) : Option BlockResult :=
  if normalizedEntry ≠ "curl" ∧ normalizedEntry ≠ "wget" then none
  else
    let currentArgs := getCommandArgs currentCommandEntries
    match checkPipeToShell currentArgs commandSegment cfg.trustedDomains with
    | some b => some b
    | none => checkDownloadAndExec O remaining currentArgs normalizedEntry vars

/-- `handleBashSubshells(normalizedEntry, commandSegment, vars)`. -/
def handleBashSubshells (O : Oracles) (normalizedEntry : String)
    (commandSegment : List ParsedEntry) (vars : VarMap) : Option BlockResult :=
  if normalizedEntry = "bash" || normalizedEntry = "sh" || normalizedEntry = "zsh" then
    let hasSubstitution := commandSegment.any (fun item =>
      match item with
      | .word w =>
        let resolved := resolveVariable O w vars
        strIncludes resolved "<(curl" || strIncludes resolved "<(wget"
          || strIncludes resolved "< <(curl" || strIncludes resolved "< <(wget"
      | .op _ => false)
    if hasSubstitution then some procSubBlock else none
  else none

/-- `resolveCmdName(entry, vars)`. -/
def resolveCmdName (O : Oracles) (entry : String) (vars : VarMap) : String :=
  normalizeCommandName (resolveVariable O entry vars)

/-- `checkShellContext(resolvedCmd, config)`. -/
def checkShellContext (O : Oracles) (blocked : List String) (resolvedCmd : String) :
    Option BlockResult :=
  if !blocked.contains resolvedCmd then
    match O.shellCtx resolvedCmd with
    | some ctxEntry =>
      if ctxEntry.kind = .alias ∨ ctxEntry.kind = .func then
        match findBlockedTokenInShellContext ctxEntry blocked with
        | some hit =>
          if hit ≠ resolvedCmd then
            some (.block "SHELL CONTEXT OVERRIDE DETECTED"
              ("Your shell " ++ ctxKindStr ctxEntry.kind ++ " for '" ++ resolvedCmd
                ++ "' references '" ++ hit ++ "'. Inspect with: type " ++ resolvedCmd
                ++ ". Prefer bypass with: \\" ++ resolvedCmd ++ " or command "
                ++ resolvedCmd ++ ".")
              none)
          else none
        | none => none
      else none
    | none => none
  else none

/-- `handleCommand(entry, commandEntries, context, vars)`; the ghost edge
list records recursive analyses performed through `rc`. -/
def handleCommand (O : Oracles) (cfg : Config)
    (rc : String → BlockResult × GhostEdges) (entry : String)
    (commandEntries : List ParsedEntry) (vars : VarMap) :
    Option BlockResult × GhostEdges :=
  let resolvedCmd := resolveCmdName O entry vars
  match checkShellContext O cfg.blocked resolvedCmd with
  | some b => (some b, [])
  | none =>
    if cfg.allowed.contains resolvedCmd then (none, [])
    else
      let args := getCommandArgs commandEntries
      match checkBlockedCommand O resolvedCmd args cfg.blocked cfg.threshold with
      | some b => (some b, [])
      | none =>
        match (if resolvedCmd = "find" then checkFindCommand commandEntries cfg.blocked
          else none) with
        | some b => (some b, [])
        | none =>
          if SHELL_COMMANDS.contains resolvedCmd then
            let sub := checkSubshellCommand commandEntries 0 rc
            match sub.1 with
            | some r => if r.blockedB then (some r, sub.2) else (none, sub.2)
            | none => (none, sub.2)
          else (none, [])

/-- One iteration of the `CoreAstRule.check` while-loop. -/
inductive StepRes where
  | halt (r : BlockResult) (gh : GhostEdges)
  | go1 (vars : VarMap) (nmc : Bool) (gh : GhostEdges)
  | go2 (vars : VarMap) (nmc : Bool) (gh : GhostEdges)
deriving Repr

/-- The ghost edges carried by a step outcome. -/
def stepResGhost : StepRes → GhostEdges
  | .halt _ gh => gh
  | .go1 _ _ gh => gh
  | .go2 _ _ gh => gh

/-- One iteration of the walk: `entry` is `tokens[i]`, `rest` is
everything after it.  `go1`/`go2` advance the index by 1/2 and carry the
updated state. -/
def walkStep (O : Oracles) (cfg : Config)
    (rc : String → BlockResult × GhostEdges) (entry : ParsedEntry)
    (rest : List ParsedEntry) (vars : VarMap) (nmc : Bool) : StepRes :=
  match entry with
  | .op o =>
    match handleOperator O o rest.head? vars with
    | some r => .halt r []
    | none => .go1 vars true []
  | .word w =>
    if nmc = false then
      let vars2 := (checkEnvironmentVariable w vars).2
      match checkSensitivePathWrite O w rest.head? with
      | some r => .halt r []
      | none => .go1 vars2 false []
    else
      let cev := checkEnvironmentVariable w vars
      if cev.1 then .go1 cev.2 true []
      else
        let resolvedEntry :=
          let rv := resolveVariable O w vars
          if rv = "" then w else rv
        let normalizedEntry := normalizeCommandName resolvedEntry
        let commandSegment := sliceUntilOperators rest CONTROL_OPERATORS
        let currentCommandEntries :=
          sliceUntilOperators commandSegment COMMAND_BOUNDARY_OPERATORS
        match handleCurlWget O cfg normalizedEntry rest commandSegment
            currentCommandEntries vars with
        | some r => .halt r []
        | none =>
          match handleBashSubshells O normalizedEntry commandSegment vars with
          | some r => .halt r []
          | none =>
            if isCommandPrefixWord normalizedEntry then .go1 vars true []
            else if normalizedEntry = "git" ∧ isGitRm currentCommandEntries.head? then
              .go2 vars false []
            else
              let hc := handleCommand O cfg rc resolvedEntry currentCommandEntries vars
              match hc.1 with
              | some r => .halt r hc.2
              | none => .go1 vars false hc.2

/-- The while-loop of `CoreAstRule.check` over the token stream. -/
def walkTokens (O : Oracles) (cfg : Config)
    (rc : String → BlockResult × GhostEdges) :
    List ParsedEntry → VarMap → Bool → Option BlockResult × GhostEdges
  | [], _, _ => (none, [])
  | entry :: rest, vars, nmc =>
    match walkStep O cfg rc entry rest vars nmc with
    | .halt r gh => (some r, gh)
    | .go1 vars' nmc' gh =>
      let w := walkTokens O cfg rc rest vars' nmc'
      (w.1, gh ++ w.2)
    | .go2 vars' nmc' gh =>
      match rest with
      | [] => (none, gh)
      | _ :: rest2 =>
        let w := walkTokens O cfg rc rest2 vars' nmc'
        (w.1, gh ++ w.2)

/-! ## Rule engine and analyzer façade (`src/parser/rules/*`,
`src/parser/analyzer.ts`) -/

/-- The `phase` marker of a rule (`"pre"` / `"post"`); a rule class that
declares no `phase` property has `none` here (JS `undefined`). -/
inductive Phase where
  | pre
  | post
deriving DecidableEq, Repr

/-- The rule-execution context. -/
structure RuleContext where
  command : String
  tokens : List ParsedEntry
  config : Config
  depth : Nat
  recursiveCheck : String → BlockResult × GhostEdges

/-- A security rule: name, optional phase marker, check function. -/
structure SecurityRule where
  name : String
  phase : Option Phase
  check : Oracles → RuleContext → Option BlockResult × GhostEdges

/-- `HomographRule` — declares `name` but, unlike the other pre rules, no
`phase` property (its `phase` is JS `undefined`). -/
def homographRule : SecurityRule :=
  { name := "HomographRule"
    phase := none
    check := fun _ ctx =>
      let res := hasHomograph ctx.command
      (if res.detected then
        some (.block "HOMOGRAPH ATTACK DETECTED"
          ("Suspicious character found: " ++ (res.char.getD "undefined")
            ++ ". This may be a visually similar domain masking a malicious source.")
          none)
      else none, []) }

/-- `TerminalInjectionRule` (`phase = "pre"`). -/
def terminalInjectionRule : SecurityRule :=
  { name := "TerminalInjectionRule"
    phase := some .pre
    check := fun _ ctx =>
      let injection := checkTerminalInjection ctx.command
      (if injection.detected then
        some (.block (injection.reason.getD "TERMINAL INJECTION DETECTED")
          "Command contains ANSI escape sequences or hidden characters that can manipulate terminal output."
          none)
      else none, []) }

/-- The pattern loop of `RawThreatRule.check`. -/
def rtScan (O : Oracles) (command : String) : List RTEntry → Option BlockResult
  | [] => none
  | e :: rest =>
    if safeRegexTest (O.ptest e.pat) command then
      some (.block e.reason e.suggestion none)
    else rtScan O command rest

/-- `RawThreatRule` (`phase = "pre"`): length guard, deep-subshell check,
then the pattern table. -/
def rawThreatRule : SecurityRule :=
  { name := "RawThreatRule"
    phase := some .pre
    check := fun O ctx =>
      let command := ctx.command
      if command.length > MAX_INPUT_LENGTH then
        (some (.block "COMMAND TOO LONG"
          "The command exceeds the analysis limit. Inspect manually or simplify." none), [])
      else if O.subshellCMatches command ≥ 4 && O.destructiveVerb command then
        (some (.block "DEEP SUBSHELL DETECTED"
          "Nested shells can conceal destructive commands. Review the full command before running."
          none), [])
      else (rtScan O command rawThreatPatterns, []) }

/-- The loop of `CustomRule.check` over the configured custom rules;
a pattern `new RegExp` rejects (`compileRegex` returns `none`) is skipped. -/
def customScan (O : Oracles) (command : String) : List CustomRuleCfg → Option BlockResult
  | [] => none
  | rule :: rest =>
    match O.compileRegex rule.pattern with
    | none => customScan O command rest
    | some test =>
      if test command then
        some (.block "CUSTOM RULE VIOLATION" rule.suggestion none)
      else customScan O command rest

/-- `CustomRule` — declares `name` but, like `HomographRule`, no `phase`
property. -/
def customRule : SecurityRule :=
  { name := "CustomRule"
    phase := none
    check := fun O ctx => (customScan O ctx.command ctx.config.customRules, []) }

/-- `CoreAstRule` (`phase = "post"`). -/
def coreAstRule : SecurityRule :=
  { name := "CoreAstRule"
    phase := some .post
    check := fun O ctx => walkTokens O ctx.config ctx.recursiveCheck ctx.tokens [] true }

/-- The rule list of the analyzer, in declaration order. -/
def rules : List SecurityRule :=
  [homographRule, terminalInjectionRule, rawThreatRule, customRule, coreAstRule]

/-- `annotateRule(ruleName, result)`. -/
def annotateRule (ruleName : String) : Option BlockResult → Option BlockResult
  | none => none
  | some .ok => some .ok
  | some (.block r s ru) => some (.block r s (some (ru.getD ruleName)))

/-- One phase loop of the analyzer: run the rules carrying the given
phase marker, returning the first blocking (annotated) decision. -/
def runRules (O : Oracles) (ph : Phase) (ctx : RuleContext) :
    List SecurityRule → Option BlockResult × GhostEdges
  | [] => (none, [])
  | r :: rest =>
    if r.phase = some ph then
      let rg := r.check O ctx
      match annotateRule r.name rg.1 with
      | some b =>
        if b.blockedB then (some b, rg.2)
        else
          let rr := runRules O ph ctx rest
          (rr.1, rg.2 ++ rr.2)
      | none =>
        let rr := runRules O ph ctx rest
        (rr.1, rg.2 ++ rr.2)
    else runRules O ph ctx rest

/-- The depth-limit decision of the analyzer façade. -/
def depthBlock (maxDepth : Nat) : BlockResult :=
  .block "SUBSHELL DEPTH LIMIT EXCEEDED"
    ("Command contains nested subshells beyond the analysis limit (" ++ toString maxDepth
      ++ "). Simplify the command, or inspect it manually before running.")
    (some "Analyzer")

/-- The malformed-syntax decision of the analyzer façade. -/
def malformedBlock : BlockResult :=
  .block "MALFORMED COMMAND SYNTAX" "Command contains invalid shell syntax."
    (some "Analyzer")

/-- `checkDestructive(command, depth, context)`, fuelled.  The `fuel`
argument only makes the recursion structural: a recursive invocation
raises `depth` by 1 and a call with `depth > maxSubshellDepth` returns at
once, so `maxSubshellDepth + 1 - depth + 1` fuel never runs out (the
fuel-0 branch is unreachable from `checkDestructive`). -/
def analyzeFuel (O : Oracles) (cfg : Config) :
    Nat → String → Nat → BlockResult × GhostEdges
  | 0, _, _ => (.ok, [])
  | fuel + 1, command, depth =>
    if depth > cfg.maxSubshellDepth then (depthBlock cfg.maxSubshellDepth, [])
    else
      let rc : String → BlockResult × GhostEdges := fun c =>
        let r := analyzeFuel O cfg fuel c (depth + 1)
        (r.1, (depth, depth + 1) :: r.2)
      let preCtx : RuleContext := ⟨command, [], cfg, depth, rc⟩
      let pre := runRules O .pre preCtx rules
      match pre.1 with
      | some b => (b, pre.2)
      | none =>
        match O.parse command with
        | none => (malformedBlock, pre.2)
        | some tokens =>
          let ctx : RuleContext := ⟨command, tokens, cfg, depth, rc⟩
          let post := runRules O .post ctx rules
          match post.1 with
          | some b => (b, pre.2 ++ post.2)
          | none => (.ok, pre.2 ++ post.2)

/-- `checkDestructive(command, depth, context)` — the analyzer façade.
The first component is the decision; the second is the ghost list of
recursion edges. -/
def checkDestructive (O : Oracles) (cfg : Config) (command : String)
    (depth : Nat) : BlockResult × GhostEdges :=
  analyzeFuel O cfg (cfg.maxSubshellDepth + 1 - depth + 1) command depth

/-- The recursive checker the analyzer passes to its rules at depth
`depth` with the given remaining fuel (the `recursiveCheck` closure,
with the ghost edge recorded). -/
def analyzeRCF (O : Oracles) (cfg : Config) (fuel depth : Nat) :
    String → BlockResult × GhostEdges := fun c =>
  let r := analyzeFuel O cfg fuel c (depth + 1)
  (r.1, (depth, depth + 1) :: r.2)

/-- The recursive checker as instantiated by `checkDestructive`. -/
def analyzeRC (O : Oracles) (cfg : Config) (depth : Nat) :
    String → BlockResult × GhostEdges :=
  analyzeRCF O cfg (cfg.maxSubshellDepth + 1 - depth) depth

/-- The outcome of the pre phase (`TerminalInjectionRule` then
`RawThreatRule`; `HomographRule` and `CustomRule` carry no phase marker
and are skipped), as a function of the command alone. -/
def preResult (O : Oracles) (command : String) : Option BlockResult :=
  let injection := checkTerminalInjection command
  if injection.detected then
    some (.block (injection.reason.getD "TERMINAL INJECTION DETECTED")
      "Command contains ANSI escape sequences or hidden characters that can manipulate terminal output."
      (some "TerminalInjectionRule"))
  else if command.length > MAX_INPUT_LENGTH then
    some (.block "COMMAND TOO LONG"
      "The command exceeds the analysis limit. Inspect manually or simplify."
      (some "RawThreatRule"))
  else if O.subshellCMatches command ≥ 4 && O.destructiveVerb command then
    some (.block "DEEP SUBSHELL DETECTED"
      "Nested shells can conceal destructive commands. Review the full command before running."
      (some "RawThreatRule"))
  else
    match rtScan O command rawThreatPatterns with
    | some (.block r s ru) => some (.block r s (some (ru.getD "RawThreatRule")))
    | some .ok => none
    | none => none

/-! ## Concrete oracle instances used by the closed theorems -/

/-- A lookup-table tokenizer oracle covering the concrete commands
evaluated in this file (with the `${VAR}`-preserving callback of the
analyzer). -/
def tableParse (tab : List (String × List ParsedEntry)) :
    String → Option (List ParsedEntry) :=
  fun s => (tab.find? (fun p => p.1 = s)).map (fun p => p.2)

/-- Oracles for a run in which no external collaborator interferes: no
raw-threat regex fires, no environment variables, no shell-context
snapshot, a clean git status. -/
def quietOracles (parseTab : List (String × List ParsedEntry)) : Oracles :=
  { parse := tableParse parseTab
    ptest := fun _ _ => false
    subshellCMatches := fun _ => 0
    destructiveVerb := fun _ => false
    compileRegex := fun _ => none
    env := fun _ => none
    home := "/home/user"
    shellCtx := emptyShellCtx
    gitStatus := fun _ _ => "" }

/-! ## Claim-specific definitions -/

/-- The reading of claim C6: after normalizing backslashes to `/`,
lowercasing and stripping trailing slashes, a path is critical exactly
when it is empty, a filesystem root (`/` or a drive root), a member of
the critical-path set, `.git`, or ends in the component `/.git`. -/
def claimCriticalC6 (p : String) : Bool :=
  let n := stripTrailing '/' (replaceCharAll '\\' '/' (strLower p))
  n = "" || n = "/" || isDriveOnly n || CRITICAL_PATHS.contains n
    || n = ".git" || strEnds n "/.git"

/-- The amended critical-path predicate: the code's normalization
(which also inserts the missing slash after a bare drive letter) followed
by the disjunction of the code's tests — including the two the claim
omits: a normalized form that merely *ends* in `.git`, and a normalized
form whose slash-stripped version is in the set. -/
def criticalAmendedC6 (p : String) : Bool :=
  let n := cpNormalize p
  n = "" || n = "/" || isDriveOnly n
    || CRITICAL_PATHS.contains n || CRITICAL_PATHS.contains (removeChar '/' n)
    || n = ".git" || strEnds n "/.git" || strEnds n ".git"

/-- Host charset for claim C2: nonempty, lowercase letters, digits,
dots, hyphens (so that `new URL` keeps the host verbatim). -/
def hostCharList : List Char := "abcdefghijklmnopqrstuvwxyz0123456789.-".data

/-- Path charset for claim C2: lowercase letters, digits, dots, slashes,
hyphens, underscores. -/
def pathCharList : List Char := "abcdefghijklmnopqrstuvwxyz0123456789./-_".data

/-- A simple host, as used in claim C2. -/
def hostOk (h : String) : Bool :=
  !h.data.isEmpty && h.data.all (fun c => hostCharList.contains c)

/-- A simple URL path, as used in claim C2. -/
def pathOk (p : String) : Bool :=
  p.data.all (fun c => pathCharList.contains c)

/-- The URL of claim C2's command shape. -/
def pipeUrl (host p : String) : String := "https://" ++ host ++ "/" ++ p

/-- Claim C2's command shape `curl -sSL https://<host>/<p> | bash`. -/
def pipeCmd (host p : String) : String := "curl -sSL " ++ pipeUrl host p ++ " | bash"

/-- The token stream `shell-quote` produces for claim C2's command
shape. -/
def pipeTokens (host p : String) : List ParsedEntry :=
  [.word "curl", .word "-sSL", .word (pipeUrl host p), .op "|", .word "bash"]

/-- The trusted-host predicate of the claim: the host equals an entry or
ends in `"." ++ entry`. -/
def hostTrusted (host : String) (trustedDomains : List String) : Bool :=
  trustedDomains.any (fun trusted => host = trusted || strEnds host ("." ++ trusted))

/-- The `PIPE-TO-SHELL DETECTED` decision (before rule annotation). -/
def pipeShellBlock : BlockResult :=
  .block "PIPE-TO-SHELL DETECTED"
    "Executing remote scripts directly via pipe is dangerous. Download and review the script first."
    none

/-- Well-formedness of a decision: a blocking decision carries a nonempty
reason and a nonempty suggestion. -/
def resultWF (r : BlockResult) : Prop :=
  r.blockedB = true → r.reasonS ≠ "" ∧ r.suggestionS ≠ ""

/-- Well-formedness of an optional decision. -/
def optWF (r : Option BlockResult) : Prop :=
  ∀ b, r = some b → resultWF b

/-! ### Concrete inputs for the closed theorems -/

/-- Claim C1: a homograph command (Cyrillic `а` inside the hostname). -/
def hgCmd : String := "curl https://аpple.com/i.sh"

/-- Its token stream. -/
def hgTokens : List ParsedEntry := [.word "curl", .word "https://аpple.com/i.sh"]

/-- Oracles for the homograph run. -/
def hgOracles : Oracles := quietOracles [(hgCmd, hgTokens)]

/-- Claim C1: a command matched by a configured custom rule. -/
def c1CustomCmd : String := "badcmd --now"

/-- Configuration with one valid, matching custom rule. -/
def c1CustomCfg : Config :=
  { defaultConfig with customRules := [⟨"badcmd", "Use goodcmd."⟩] }

/-- Oracles whose `RegExp` engine compiles `badcmd` to a substring
matcher. -/
def c1CustomOracles : Oracles :=
  { quietOracles [(c1CustomCmd, [.word "badcmd", .word "--now"])] with
      compileRegex := fun pat =>
        if pat = "badcmd" then some (fun s => strIncludes s "badcmd") else none }

/-- Claim C5: a command matched by a configured custom rule. -/
def c5Cmd : String := "danger zone"

/-- Claim C5: one invalid pattern (skipped) followed by a valid matching
one. -/
def c5Cfg : Config :=
  { defaultConfig with
      customRules := [⟨"[invalid", "skipped"⟩, ⟨"danger", "Use safe-mode."⟩] }

/-- Oracles whose `RegExp` engine rejects `[invalid` and compiles
`danger` to a substring matcher. -/
def c5Oracles : Oracles :=
  { quietOracles [(c5Cmd, [.word "danger", .word "zone"])] with
      compileRegex := fun pat =>
        if pat = "danger" then some (fun s => strIncludes s "danger") else none }

/-- Claim C3: an over-length command that starts with `ESC [`. -/
def c3InjCmd : String := String.mk (Char.ofNat 0x1b :: '[' :: List.replicate 9999 'a')

/-- Claim C3 witness: an over-length command of plain `a`s. -/
def c3LongCmd : String := String.mk (List.replicate 10001 'a')

/-- Claim C4: three sibling subshells under `maxSubshellDepth = 1`. -/
def c4Cmd : String := "bash -c ls; bash -c ls; bash -c ls"

/-- Its token stream, plus the inner command's. -/
def c4Oracles : Oracles :=
  quietOracles
    [(c4Cmd,
      [.word "bash", .word "-c", .word "ls", .op ";",
       .word "bash", .word "-c", .word "ls", .op ";",
       .word "bash", .word "-c", .word "ls"]),
     ("ls", [.word "ls"])]

/-- Claim C4: configuration with `maxSubshellDepth = 1`. -/
def c4Cfg : Config := { defaultConfig with maxSubshellDepth := 1 }

/-- Claim C7: a snapshot in which `dd` is an alias whose body references
`rm`. -/
def c7Oracles : Oracles :=
  { quietOracles [("dd myfile", [.word "dd", .word "myfile"])] with
      shellCtx := fun c =>
        if c = "dd" then some ⟨.alias, "rm -i", ["rm"]⟩ else none }

/-- Claim C7: blocklist `{rm}` before the addition. -/
def c7Cfg : Config := { defaultConfig with blocked := ["rm"] }

/-- Claim C7 witness: `rm /etc` under the defaults. -/
def c7WitnessOracles : Oracles :=
  quietOracles [("rm /etc", [.word "rm", .word "/etc"])]

/-- Claim C9: a custom rule with an empty configured suggestion. -/
def c9Rules : List CustomRuleCfg := [⟨"a", ""⟩]

/-- Oracles whose `RegExp` engine compiles `a` to a substring matcher. -/
def c9Oracles : Oracles :=
  { quietOracles [] with
      compileRegex := fun pat =>
        if pat = "a" then some (fun s => strIncludes s "a") else none }

/-- The rule context `CustomRule.check` receives for the C9
counterexample run. -/
def c9Ctx : RuleContext :=
  { command := "aaa"
    tokens := [.word "aaa"]
    config := { defaultConfig with customRules := c9Rules }
    depth := 0
    recursiveCheck := fun _ => (.ok, []) }

/-- Claim C9 witness: a custom-rule list whose suggestions are all
nonempty. -/
def c9GoodRules : List CustomRuleCfg := [⟨"a", "Use the trash command."⟩]

/-- Every character that can occur in claim C2's command shape. -/
def c2AllChars : List Char := "abcdefghijklmnopqrstuvwxyzSL0123456789./-_ |:".data

/-- Claim C2 witness: tokenizer table for the concrete command. -/
def c2Oracles : Oracles :=
  quietOracles [(pipeCmd "example.com" "i.sh", pipeTokens "example.com" "i.sh")]

/-- Claim C2 counterexample command:
`curl -sSL https://example.com/install.sed | bash`. -/
def c2SedCmd : String := pipeCmd "example.com" "install.sed"

/-- Oracle for the C2 counterexample, with the JS regex engine's actual
verdicts on `curl -sSL https://example.com/install.sed | bash`: of the
raw-threat table exactly `sedToShell`
(`/\bsed\b[^|]{0,500}?\|\s{0,10}(?:sh|bash|zsh)\b/i`) matches — the
substring `.sed | bash` has `sed` between word boundaries, then a pipe,
then `bash` — while no earlier entry does (`downloadToInterpreter`
targets only the non-shell executors, and the command contains no
`eval`, `$(`, backtick, `base64`, `xxd`, `awk`, `openssl` or `tar`). -/
def c2SedOracles : Oracles :=
  { quietOracles [(c2SedCmd, pipeTokens "example.com" "install.sed")] with
      ptest := fun p _ => decide (p = RTPat.sedToShell) }

/-! # Theorems settling the claims -/

section GhostLemmas

variable (O : Oracles) (cfg : Config) (rc : String → BlockResult × GhostEdges)
variable (P : Nat × Nat → Prop)

/-- Ghost edges of the subshell helper come from the recursive checker. -/
theorem checkSubshellCommand_ghost (entries : List ParsedEntry) (si : Nat)
    (hrc : ∀ s, ∀ e ∈ (rc s).2, P e) :
    ∀ e ∈ (checkSubshellCommand entries si rc).2, P e := by
  intro e he
  unfold checkSubshellCommand at he
  dsimp only at he
  split at he
  · simp at he
  · split at he
    · simp at he
    · split at he
      · exact hrc _ e he
      · simp at he

/-- Ghost edges of `handleCommand` come from the recursive checker. -/
theorem handleCommand_ghost (entry : String) (ce : List ParsedEntry) (vars : VarMap)
    (hrc : ∀ s, ∀ e ∈ (rc s).2, P e) :
    ∀ e ∈ (handleCommand O cfg rc entry ce vars).2, P e := by
  intro e he
  unfold handleCommand at he
  dsimp only at he
  split at he
  · simp at he
  · split at he
    · simp at he
    · split at he
      · simp at he
      · split at he
        · simp at he
        · split at he
          · split at he
            · split at he
              · exact checkSubshellCommand_ghost rc P ce 0 hrc e he
              · exact checkSubshellCommand_ghost rc P ce 0 hrc e he
            · exact checkSubshellCommand_ghost rc P ce 0 hrc e he
          · simp at he

/-- Ghost edges of one walk step come from the recursive checker. -/
theorem walkStep_ghost (entry : ParsedEntry) (rest : List ParsedEntry)
    (vars : VarMap) (nmc : Bool)
    (hrc : ∀ s, ∀ e ∈ (rc s).2, P e) :
    ∀ e ∈ stepResGhost (walkStep O cfg rc entry rest vars nmc), P e := by
  intro e he
  cases entry with
  | op o =>
    unfold walkStep at he
    dsimp only at he
    split at he <;> simp [stepResGhost] at he
  | word w =>
    unfold walkStep at he
    dsimp only at he
    repeat' split at he
    all_goals
      first
        | exact handleCommand_ghost O cfg rc P _ _ vars hrc e he
        | simp [stepResGhost] at he

/-- Ghost edges of the walk come from the recursive checker. -/
theorem walkTokens_ghost (hrc : ∀ s, ∀ e ∈ (rc s).2, P e) :
    ∀ (l : List ParsedEntry) (vars : VarMap) (nmc : Bool),
      ∀ e ∈ (walkTokens O cfg rc l vars nmc).2, P e := by
  suffices h : ∀ (n : Nat) (l : List ParsedEntry), l.length ≤ n →
      ∀ (vars : VarMap) (nmc : Bool),
        ∀ e ∈ (walkTokens O cfg rc l vars nmc).2, P e by
    intro l vars nmc e he
    exact h l.length l le_rfl vars nmc e he
  intro n
  induction n with
  | zero =>
    intro l hl vars nmc e he
    rw [List.length_eq_zero.mp (Nat.le_zero.mp hl)] at he
    simp [walkTokens] at he
  | succ n ih =>
    intro l hl vars nmc e he
    cases l with
    | nil => simp [walkTokens] at he
    | cons entry rest =>
      have hstep := walkStep_ghost O cfg rc P entry rest vars nmc hrc e
      rcases hs : walkStep O cfg rc entry rest vars nmc with ⟨r, gh⟩ | ⟨v2, n2, gh⟩ | ⟨v2, n2, gh⟩ <;>
        rw [hs] at hstep <;> simp only [stepResGhost] at hstep <;>
        simp only [walkTokens, hs] at he
      · exact hstep he
      · rcases List.mem_append.mp (by simpa using he) with h | h
        · exact hstep h
        · exact ih rest (by simp at hl; omega) v2 n2 e h
      · cases rest with
        | nil => exact hstep (by simpa using he)
        | cons t rest2 =>
          rcases List.mem_append.mp (by simpa using he) with h | h
          · exact hstep h
          · exact ih rest2 (by simp at hl; omega) v2 n2 e h

/-- Ghost edges of any rule of the analyzer's rule list come from the
context's recursive checker. -/
theorem ruleCheck_ghost (ctx : RuleContext)
    (hrc : ∀ s, ∀ e ∈ (ctx.recursiveCheck s).2, P e) :
    ∀ r ∈ rules, ∀ e ∈ (r.check O ctx).2, P e := by
  intro r hr e he
  simp only [rules, List.mem_cons, List.not_mem_nil, or_false] at hr
  rcases hr with h | h | h | h | h <;> subst h
  · simp [homographRule] at he
  · simp [terminalInjectionRule] at he
  · unfold rawThreatRule at he
    dsimp only at he
    repeat' split at he
    all_goals simp at he
  · simp [customRule] at he
  · exact walkTokens_ghost O ctx.config ctx.recursiveCheck P hrc ctx.tokens [] true e he

/-- Ghost edges of a phase run over the analyzer's rules come from the
context's recursive checker. -/
theorem runRules_ghost (ph : Phase) (ctx : RuleContext)
    (hrc : ∀ s, ∀ e ∈ (ctx.recursiveCheck s).2, P e) :
    ∀ rs : List SecurityRule, (∀ r ∈ rs, r ∈ rules) →
      ∀ e ∈ (runRules O ph ctx rs).2, P e := by
  intro rs
  induction rs with
  | nil => intro _ e he; simp [runRules] at he
  | cons r rest ih =>
    intro hsub e he
    have hr := ruleCheck_ghost O P ctx hrc r (hsub r (by simp))
    have hrest := fun e2 => ih (fun x hx => hsub x (by simp [hx])) e2
    simp only [runRules] at he
    repeat' split at he
    all_goals
      first
        | exact hr e he
        | exact hrest e he
        | (rcases List.mem_append.mp he with h | h
           · exact hr e h
           · exact hrest e h)

/-- Every ghost edge recorded by the fuelled analyzer run at depth `d`
joins some caller depth `p` with callee depth `p + 1`, where `d ≤ p` and
`p` never exceeds the configured maximum. -/
theorem analyzeFuel_ghost :
    ∀ (fuel : Nat) (cmd : String) (d : Nat),
      ∀ e ∈ (analyzeFuel O cfg fuel cmd d).2,
        e.2 = e.1 + 1 ∧ d ≤ e.1 ∧ e.1 ≤ cfg.maxSubshellDepth := by
  intro fuel
  induction fuel with
  | zero => intro cmd d e he; simp [analyzeFuel] at he
  | succ f ih =>
    intro cmd d e he
    simp only [analyzeFuel] at he
    split at he
    · simp at he
    · rename_i hdle
      have hrc : ∀ s, ∀ e2 ∈ (analyzeRCF O cfg f d s).2,
          e2.2 = e2.1 + 1 ∧ d ≤ e2.1 ∧ e2.1 ≤ cfg.maxSubshellDepth := by
        intro s e2 he2
        simp only [analyzeRCF] at he2
        rcases List.mem_cons.mp he2 with h | h
        · subst h; exact ⟨rfl, le_refl d, by omega⟩
        · have h3 := ih s (d + 1) e2 h
          exact ⟨h3.1, by omega, h3.2.2⟩
      have hrun : ∀ (toks : List ParsedEntry) (ph : Phase),
          ∀ e2 ∈ (runRules O ph ⟨cmd, toks, cfg, d, analyzeRCF O cfg f d⟩ rules).2,
            e2.2 = e2.1 + 1 ∧ d ≤ e2.1 ∧ e2.1 ≤ cfg.maxSubshellDepth :=
        fun toks ph =>
          runRules_ghost O (fun e2 => e2.2 = e2.1 + 1 ∧ d ≤ e2.1 ∧ e2.1 ≤ cfg.maxSubshellDepth)
            ph ⟨cmd, toks, cfg, d, analyzeRCF O cfg f d⟩ hrc rules (fun _ hr => hr)
      repeat' split at he
      all_goals
        first
          | exact hrun _ _ e he
          | (rcases List.mem_append.mp he with h | h <;> exact hrun _ _ e h)

end GhostLemmas

/-! ## Well-formedness of every decision the analyzer produces (claim C9) -/

/-- `none` is a well-formed optional decision. -/
theorem optWF_none : optWF none := fun _ hb => by cases hb

/-- `some r` is well-formed when `r` is. -/
theorem optWF_some (r : BlockResult) (h : resultWF r) : optWF (some r) :=
  fun _ hb => by cases hb; exact h

/-- The allow decision is well-formed. -/
theorem resultWF_ok : resultWF .ok := fun h => by cases h

/-- A block with nonempty reason and suggestion is well-formed. -/
theorem resultWF_block (r s : String) (ru : Option String) (hr : r ≠ "") (hs : s ≠ "") :
    resultWF (.block r s ru) := fun _ => ⟨hr, hs⟩

/-- Appending anything to a nonempty string stays nonempty. -/
theorem appendNeOfLeft (s t : String) (h : s ≠ "") : s ++ t ≠ "" := by
  intro he
  apply h
  have hd : s.data ++ t.data = [] := by rw [← strDataAppend, he]
  obtain ⟨hs, -⟩ := List.append_eq_nil.mp hd
  cases s with
  | mk d => cases hs; rfl

/-- An `Option.map` of a block builder over a `find?` is well-formed when
the builder always is. -/
theorem optWF_map_find (l : List String) (p : String → Bool) (f : String → BlockResult)
    (h : ∀ a, resultWF (f a)) : optWF ((l.find? p).map f) := by
  intro b hb
  rcases Option.map_eq_some'.mp hb with ⟨a, -, hfa⟩
  exact hfa ▸ h a

/-- An `if` over well-formed optional decisions is well-formed. -/
theorem optWF_ite (c : Prop) [Decidable c] (a b : Option BlockResult)
    (ha : optWF a) (hb : optWF b) : optWF (if c then a else b) := by
  split
  · exact ha
  · exact hb

/-- The trash suggestion is never empty. -/
theorem getTrashSuggestion_ne (files : List String) : getTrashSuggestion files ≠ "" := by
  unfold getTrashSuggestion
  split
  · decide
  · exact appendNeOfLeft _ _ (by decide)

/-- The terminal-injection reason is never empty, even through `getD`. -/
theorem tiReason_ne (s : String) :
    (checkTerminalInjection s).reason.getD "TERMINAL INJECTION DETECTED" ≠ "" := by
  unfold checkTerminalInjection
  repeat' split
  all_goals decide

/-- `checkUrlCredentials` yields well-formed decisions. -/
theorem checkUrlCredentials_wf : ∀ args : List String, optWF (checkUrlCredentials args) := by
  intro args
  induction args with
  | nil => exact optWF_none
  | cons a rest ih =>
    unfold checkUrlCredentials
    repeat' split
    all_goals first
      | exact ih
      | exact optWF_none
      | exact optWF_some _ (resultWF_block _ _ _ (by decide) (by decide))

/-- `checkTransportSecurity` yields well-formed decisions. -/
theorem checkTransportSecurity_wf (args : List String) :
    optWF (checkTransportSecurity args) := by
  unfold checkTransportSecurity
  repeat' split
  all_goals first
    | exact optWF_none
    | exact optWF_some _ (resultWF_block _ _ _ (by decide) (by decide))

/-- `checkPipeToShell` yields well-formed decisions. -/
theorem checkPipeToShell_wf (args : List String) (remaining : List ParsedEntry)
    (td : List String) : optWF (checkPipeToShell args remaining td) := by
  unfold checkPipeToShell
  dsimp only
  repeat' split
  all_goals first
    | exact optWF_none
    | exact optWF_some _ (resultWF_block _ _ _ (by decide) (by decide))
    | (rename_i b hb
       first
         | exact optWF_some _ (checkUrlCredentials_wf args b hb)
         | exact optWF_some _ (checkTransportSecurity_wf args b hb))

/-- `checkGitIntegration` yields well-formed decisions. -/
theorem checkGitIntegration_wf (O : Oracles) (tf : List String) :
    optWF (checkGitIntegration O tf) := by
  unfold checkGitIntegration
  dsimp only
  repeat' split
  all_goals first
    | exact optWF_none
    | (refine optWF_some _ (resultWF_block _ _ _ ?_ ?_) <;>
        (repeat first | decide | apply appendNeOfLeft))

/-- `checkBlockedCommand` yields well-formed decisions. -/
theorem checkBlockedCommand_wf (O : Oracles) (resolvedCmd : String) (args : List String)
    (blocked : List String) (threshold : Nat) :
    optWF (checkBlockedCommand O resolvedCmd args blocked threshold) := by
  unfold checkBlockedCommand
  dsimp only
  repeat' split
  all_goals first
    | exact optWF_none
    | (rename_i b hb
       first
         | exact optWF_some _ (checkGitIntegration_wf O _ b hb)
         | exact optWF_some _ (optWF_ite _ _ _
             (optWF_map_find _ _ _ (fun a => resultWF_block _ _ _ (by decide)
               (by repeat first | decide | apply appendNeOfLeft)))
             optWF_none b hb)
         | exact optWF_some _ (optWF_ite _ _ _
             (optWF_ite _ _ _
               (optWF_map_find _ _ _ (fun a => resultWF_block _ _ _ (by decide)
                 (by repeat first | decide | apply appendNeOfLeft)))
               optWF_none)
             optWF_none b hb))
    | (refine optWF_some _ (resultWF_block _ _ _ ?_ ?_) <;>
        (repeat first
          | exact getTrashSuggestion_ne _
          | decide
          | apply appendNeOfLeft))

/-- `findFlagLoop` yields well-formed decisions. -/
theorem findFlagLoop_wf (remaining : List ParsedEntry) (dc : List String) :
    ∀ flags : List String, optWF (findFlagLoop remaining dc flags) := by
  intro flags
  induction flags with
  | nil => exact optWF_none
  | cons flag rest ih =>
    unfold findFlagLoop
    dsimp only
    repeat' split
    all_goals first
      | exact ih
      | exact optWF_none
      | (refine optWF_some _ (resultWF_block _ _ _ ?_ ?_) <;>
          (repeat first
            | exact getTrashSuggestion_ne _
            | decide
            | apply appendNeOfLeft))

/-- `checkFindCommand` yields well-formed decisions. -/
theorem checkFindCommand_wf (remaining : List ParsedEntry) (blockedCommands : List String) :
    optWF (checkFindCommand remaining blockedCommands) := by
  unfold checkFindCommand
  dsimp only
  repeat' split
  all_goals first
    | exact findFlagLoop_wf _ _ _
    | exact optWF_some _ (resultWF_block _ _ _ (by decide) (getTrashSuggestion_ne _))

/-- `checkSensitivePathWrite` yields well-formed decisions. -/
theorem checkSensitivePathWrite_wf (O : Oracles) (entry : String)
    (next : Option ParsedEntry) : optWF (checkSensitivePathWrite O entry next) := by
  unfold checkSensitivePathWrite
  dsimp only
  repeat' split
  all_goals first
    | exact optWF_none
    | (refine optWF_some _ (resultWF_block _ _ _ ?_ ?_) <;>
        (repeat first | decide | apply appendNeOfLeft))

/-- `handleOperator` yields well-formed decisions. -/
theorem handleOperator_wf (O : Oracles) (op : String) (nextEntry : Option ParsedEntry)
    (vars : VarMap) : optWF (handleOperator O op nextEntry vars) := by
  unfold handleOperator
  dsimp only
  repeat' split
  all_goals first
    | exact optWF_none
    | exact optWF_some _ (resultWF_block _ _ _ (by decide) (by decide))

/-- `checkDownloadAndExec` yields well-formed decisions. -/
theorem checkDownloadAndExec_wf (O : Oracles) (remaining : List ParsedEntry)
    (commandArgs : List String) (downloader : String) (vars : VarMap) :
    optWF (checkDownloadAndExec O remaining commandArgs downloader vars) := by
  unfold checkDownloadAndExec
  dsimp only
  repeat' split
  all_goals first
    | exact optWF_none
    | exact optWF_some _ (resultWF_block _ _ _ (by decide) (by decide))

/-- `handleCurlWget` yields well-formed decisions. -/
theorem handleCurlWget_wf (O : Oracles) (cfg : Config) (normalizedEntry : String)
    (remaining commandSegment currentCommandEntries : List ParsedEntry)
    (vars : VarMap) :
    optWF (handleCurlWget O cfg normalizedEntry remaining commandSegment
      currentCommandEntries vars) := by
  unfold handleCurlWget
  dsimp only
  repeat' split
  all_goals first
    | exact optWF_none
    | exact checkDownloadAndExec_wf O _ _ _ vars
    | (rename_i b hb
       exact optWF_some _ (checkPipeToShell_wf _ _ cfg.trustedDomains b hb))

/-- `handleBashSubshells` yields well-formed decisions. -/
theorem handleBashSubshells_wf (O : Oracles) (normalizedEntry : String)
    (commandSegment : List ParsedEntry) (vars : VarMap) :
    optWF (handleBashSubshells O normalizedEntry commandSegment vars) := by
  unfold handleBashSubshells
  dsimp only
  repeat' split
  all_goals first
    | exact optWF_none
    | exact optWF_some _ (resultWF_block _ _ _ (by decide) (by decide))

/-- `checkShellContext` yields well-formed decisions. -/
theorem checkShellContext_wf (O : Oracles) (blocked : List String) (resolvedCmd : String) :
    optWF (checkShellContext O blocked resolvedCmd) := by
  unfold checkShellContext
  repeat' split
  all_goals first
    | exact optWF_none
    | (refine optWF_some _ (resultWF_block _ _ _ ?_ ?_) <;>
        (repeat first | decide | apply appendNeOfLeft))

/-- `checkSubshellCommand` yields well-formed decisions whenever the
recursive checker does. -/
theorem checkSubshellCommand_wf (entries : List ParsedEntry) (si : Nat)
    (rc : String → BlockResult × GhostEdges) (hrc : ∀ s, resultWF (rc s).1) :
    optWF (checkSubshellCommand entries si rc).1 := by
  unfold checkSubshellCommand
  dsimp only
  repeat' split
  all_goals first
    | exact optWF_none
    | exact optWF_some _ (hrc _)

/-- `handleCommand` yields well-formed decisions whenever the recursive
checker does. -/
theorem handleCommand_wf (O : Oracles) (cfg : Config)
    (rc : String → BlockResult × GhostEdges) (entry : String)
    (ce : List ParsedEntry) (vars : VarMap) (hrc : ∀ s, resultWF (rc s).1) :
    optWF (handleCommand O cfg rc entry ce vars).1 := by
  unfold handleCommand
  dsimp only
  repeat' split
  all_goals first
    | exact optWF_none
    | (rename_i b hb
       first
         | exact optWF_some _ (checkShellContext_wf O cfg.blocked _ b hb)
         | exact optWF_some _ (checkBlockedCommand_wf O _ _ cfg.blocked cfg.threshold b hb)
         | exact optWF_some _ (checkFindCommand_wf _ cfg.blocked b hb)
         | exact optWF_some _ (optWF_ite _ _ _ (checkFindCommand_wf _ _) optWF_none b hb)
         | exact optWF_some _ (checkSubshellCommand_wf _ _ rc hrc b hb))
    | (rename_i r hrq hblk
       exact optWF_some _ (checkSubshellCommand_wf _ _ rc hrc r hrq))

/-- A halting walk step carries a well-formed decision whenever the
recursive checker does. -/
theorem walkStep_wf (O : Oracles) (cfg : Config)
    (rc : String → BlockResult × GhostEdges) (entry : ParsedEntry)
    (rest : List ParsedEntry) (vars : VarMap) (nmc : Bool)
    (hrc : ∀ s, resultWF (rc s).1) :
    ∀ r gh, walkStep O cfg rc entry rest vars nmc = .halt r gh → resultWF r := by
  intro r gh hw
  cases entry with
  | op o =>
    unfold walkStep at hw
    dsimp only at hw
    repeat' split at hw
    all_goals first
      | (injection hw with h1 h2
         subst h1
         exact handleOperator_wf O _ _ vars _ (by assumption))
      | injection hw
  | word w =>
    unfold walkStep at hw
    dsimp only at hw
    repeat' split at hw
    all_goals first
      | (injection hw with h1 h2
         subst h1
         first
           | exact checkSensitivePathWrite_wf O _ _ _ (by assumption)
           | exact handleCurlWget_wf O cfg _ _ _ _ vars _ (by assumption)
           | exact handleBashSubshells_wf O _ _ vars _ (by assumption)
           | exact handleCommand_wf O cfg rc _ _ vars hrc _ (by assumption))
      | injection hw

/-- The walk yields well-formed decisions whenever the recursive checker
does. -/
theorem walkTokens_wf (O : Oracles) (cfg : Config)
    (rc : String → BlockResult × GhostEdges) (hrc : ∀ s, resultWF (rc s).1) :
    ∀ (l : List ParsedEntry) (vars : VarMap) (nmc : Bool),
      optWF (walkTokens O cfg rc l vars nmc).1 := by
  suffices h : ∀ (n : Nat) (l : List ParsedEntry), l.length ≤ n →
      ∀ (vars : VarMap) (nmc : Bool), optWF (walkTokens O cfg rc l vars nmc).1 by
    intro l vars nmc
    exact h l.length l le_rfl vars nmc
  intro n
  induction n with
  | zero =>
    intro l hl vars nmc
    rw [List.length_eq_zero.mp (Nat.le_zero.mp hl)]
    exact optWF_none
  | succ n ih =>
    intro l hl vars nmc
    cases l with
    | nil => exact optWF_none
    | cons entry rest =>
      intro b hb
      rcases hs : walkStep O cfg rc entry rest vars nmc with ⟨r, gh⟩ | ⟨v2, n2, gh⟩ | ⟨v2, n2, gh⟩ <;>
        simp only [walkTokens, hs] at hb
      · obtain rfl : r = b := by simpa using hb
        exact walkStep_wf O cfg rc entry rest vars nmc hrc _ gh hs
      · exact ih rest (by simp at hl; omega) v2 n2 b (by simpa using hb)
      · cases rest with
        | nil => simp at hb
        | cons t rest2 =>
          exact ih rest2 (by simp at hl; omega) v2 n2 b (by simpa using hb)

/-- The raw-threat pattern table has nonempty reasons and suggestions. -/
theorem rawThreatPatterns_wf : ∀ e ∈ rawThreatPatterns, e.reason ≠ "" ∧ e.suggestion ≠ "" := by
  decide

/-- The raw-threat pattern loop yields well-formed decisions over a table
with nonempty reasons and suggestions. -/
theorem rtScan_wf (O : Oracles) (cmd : String) :
    ∀ entries : List RTEntry, (∀ e ∈ entries, e.reason ≠ "" ∧ e.suggestion ≠ "") →
      optWF (rtScan O cmd entries) := by
  intro entries
  induction entries with
  | nil => intro _; exact optWF_none
  | cons e rest ih =>
    intro h
    unfold rtScan
    split
    · exact optWF_some _ (resultWF_block _ _ _ (h e (by simp)).1 (h e (by simp)).2)
    · exact ih (fun x hx => h x (by simp [hx]))

/-- Rule-name annotation preserves well-formedness. -/
theorem annotateRule_wf (n : String) (o : Option BlockResult) (h : optWF o) :
    optWF (annotateRule n o) := by
  intro b hb
  unfold annotateRule at hb
  repeat' split at hb
  · cases hb
  · exact (optWF_some _ resultWF_ok) b hb
  · rename_i r s ru
    exact (optWF_some _ (resultWF_block _ _ _ ((h _ rfl) rfl).1 ((h _ rfl) rfl).2)) b hb

/-- Every phase-marked rule of the analyzer yields well-formed decisions
whenever the recursive checker does. -/
theorem ruleCheck_wf (O : Oracles) (ph : Phase) (ctx : RuleContext)
    (hrc : ∀ s, resultWF (ctx.recursiveCheck s).1) :
    ∀ r ∈ rules, r.phase = some ph → optWF (r.check O ctx).1 := by
  intro r hr hph
  simp only [rules, List.mem_cons, List.not_mem_nil, or_false] at hr
  rcases hr with h | h | h | h | h <;> subst h
  · simp [homographRule] at hph
  · intro b hb
    unfold terminalInjectionRule at hb
    dsimp only at hb
    split at hb
    · exact (optWF_some _ (resultWF_block _ _ _ (tiReason_ne ctx.command) (by decide))) b hb
    · cases hb
  · intro b hb
    unfold rawThreatRule at hb
    dsimp only at hb
    repeat' split at hb
    · exact (optWF_some _ (resultWF_block _ _ _ (by decide) (by decide))) b hb
    · exact (optWF_some _ (resultWF_block _ _ _ (by decide) (by decide))) b hb
    · exact rtScan_wf O ctx.command rawThreatPatterns rawThreatPatterns_wf b hb
  · simp [customRule] at hph
  · exact walkTokens_wf O ctx.config ctx.recursiveCheck hrc ctx.tokens [] true

/-- A phase run over the analyzer's rules yields well-formed decisions
whenever the recursive checker does. -/
theorem runRules_wf (O : Oracles) (ph : Phase) (ctx : RuleContext)
    (hrc : ∀ s, resultWF (ctx.recursiveCheck s).1) :
    ∀ rs : List SecurityRule, (∀ r ∈ rs, r ∈ rules) →
      optWF (runRules O ph ctx rs).1 := by
  intro rs
  induction rs with
  | nil => intro _; exact optWF_none
  | cons r rest ih =>
    intro hsub b hb
    simp only [runRules] at hb
    repeat' split at hb
    all_goals first
      | exact ih (fun x hx => hsub x (by simp [hx])) b hb
      | (rename_i hph x b2 hann hblk
         exact optWF_some _
           (annotateRule_wf r.name _
             (ruleCheck_wf O ph ctx hrc r (hsub r (by simp)) hph) b2 hann) b hb)

/-- The fuelled analyzer always returns a well-formed decision. -/
theorem analyzeFuel_wf (O : Oracles) (cfg : Config) :
    ∀ (fuel : Nat) (cmd : String) (d : Nat), resultWF (analyzeFuel O cfg fuel cmd d).1 := by
  intro fuel
  induction fuel with
  | zero => intro cmd d; exact resultWF_ok
  | succ f ih =>
    intro cmd d
    have hrc : ∀ s, resultWF (analyzeRCF O cfg f d s).1 := fun s => ih s (d + 1)
    simp only [analyzeFuel]
    split
    · exact resultWF_block _ _ _ (by decide)
        (by repeat first | decide | apply appendNeOfLeft)
    · repeat' split
      all_goals first
        | exact resultWF_ok
        | exact resultWF_block _ _ _ (by decide) (by decide)
        | (rename_i b hb
           exact runRules_wf O _ _ hrc rules (fun _ h => h) b hb)

/-- The custom-rule loop yields well-formed decisions over a rule list
whose configured suggestions are all nonempty. -/
theorem customScan_wf (O : Oracles) (cmd : String) :
    ∀ rcs : List CustomRuleCfg, (∀ r ∈ rcs, r.suggestion ≠ "") →
      optWF (customScan O cmd rcs) := by
  intro rcs
  induction rcs with
  | nil => intro _; exact optWF_none
  | cons r rest ih =>
    intro h b hb
    unfold customScan at hb
    repeat' split at hb
    all_goals first
      | exact ih (fun x hx => h x (by simp [hx])) b hb
      | exact (optWF_some _ (resultWF_block _ _ _ (by decide) (h r (by simp)))) b hb

/-! ## Shared evaluation lemmas for the analyzer façade -/

/-- One unfolding of the analyzer below the depth limit. -/
theorem checkDestructive_step (O : Oracles) (cfg : Config) (cmd : String) (d : Nat)
    (hd : ¬ d > cfg.maxSubshellDepth) :
    checkDestructive O cfg cmd d =
      (let pre := runRules O .pre ⟨cmd, [], cfg, d, analyzeRC O cfg d⟩ rules
       match pre.1 with
       | some b => (b, pre.2)
       | none =>
         match O.parse cmd with
         | none => (malformedBlock, pre.2)
         | some tokens =>
           let post := runRules O .post ⟨cmd, tokens, cfg, d, analyzeRC O cfg d⟩ rules
           match post.1 with
           | some b => (b, pre.2 ++ post.2)
           | none => (.ok, pre.2 ++ post.2)) := by
  unfold checkDestructive
  rw [analyzeFuel, if_neg hd]
  rfl

/-- Above the depth limit the analyzer returns the depth block at once:
no rule, tokenizer or oracle is consulted. -/
theorem checkDestructive_depth_exceeded (O : Oracles) (cfg : Config) (cmd : String)
    (d : Nat) (hd : d > cfg.maxSubshellDepth) :
    checkDestructive O cfg cmd d = (depthBlock cfg.maxSubshellDepth, []) := by
  unfold checkDestructive
  rw [analyzeFuel, if_pos hd]

/-- The pre phase when the terminal-injection validator fires. -/
theorem runRules_pre_ti (O : Oracles) (cfg : Config) (cmd : String) (d : Nat)
    (rc : String → BlockResult × GhostEdges) (r : String)
    (hti : checkTerminalInjection cmd = ⟨true, some r⟩) :
    runRules O .pre ⟨cmd, [], cfg, d, rc⟩ rules
      = (some (.block r
          "Command contains ANSI escape sequences or hidden characters that can manipulate terminal output."
          (some "TerminalInjectionRule")), []) := by
  simp [rules, runRules, homographRule, terminalInjectionRule, hti, annotateRule,
    BlockResult.blockedB]

/-- The pre phase for an over-length command that the terminal-injection
validator passes: `RawThreatRule` fails closed with `COMMAND TOO LONG`. -/
theorem runRules_pre_too_long (O : Oracles) (cfg : Config) (cmd : String) (d : Nat)
    (rc : String → BlockResult × GhostEdges)
    (hclean : checkTerminalInjection cmd = ⟨false, none⟩)
    (hlen : cmd.length > MAX_INPUT_LENGTH) :
    runRules O .pre ⟨cmd, [], cfg, d, rc⟩ rules
      = (some (.block "COMMAND TOO LONG"
          "The command exceeds the analysis limit. Inspect manually or simplify."
          (some "RawThreatRule")), []) := by
  simp [rules, runRules, homographRule, terminalInjectionRule, rawThreatRule, hclean,
    hlen, annotateRule, BlockResult.blockedB]

/-- The pattern loop returns nothing when the regex oracle rejects every
pattern. -/
theorem rtScan_none_of (O : Oracles) (cmd : String) :
    ∀ entries : List RTEntry,
      (∀ e ∈ entries, O.ptest e.pat cmd = false) →
      rtScan O cmd entries = none := by
  intro entries
  induction entries with
  | nil => intro _; rfl
  | cons e rest ih =>
    intro h
    have he := h e (List.mem_cons_self e rest)
    simp [rtScan, safeRegexTest, he, ih fun x hx => h x (List.mem_cons_of_mem e hx)]

/-- The pre phase when nothing fires: the terminal-injection validator is
clean, the command is within the length bound, the deep-subshell count is
below 4, and no raw-threat regex matches. -/
theorem runRules_pre_clean (O : Oracles) (cfg : Config) (cmd : String) (d : Nat)
    (rc : String → BlockResult × GhostEdges)
    (hclean : checkTerminalInjection cmd = ⟨false, none⟩)
    (hlen : ¬ cmd.length > MAX_INPUT_LENGTH)
    (hsub : O.subshellCMatches cmd < 4)
    (hpat : ∀ e ∈ rawThreatPatterns, O.ptest e.pat cmd = false) :
    runRules O .pre ⟨cmd, [], cfg, d, rc⟩ rules = (none, []) := by
  have hscan := rtScan_none_of O cmd rawThreatPatterns hpat
  have h4 : ¬ (O.subshellCMatches cmd ≥ 4) := by omega
  simp [rules, runRules, homographRule, terminalInjectionRule, rawThreatRule,
    customRule, coreAstRule, hclean, hlen, hscan, h4, annotateRule]

/-- The post phase is the (annotated) result of the `CoreAstRule` walk —
blocking case. -/
theorem runRules_post_walk_block (O : Oracles) (cfg : Config) (cmd : String)
    (tokens : List ParsedEntry) (d : Nat)
    (rc : String → BlockResult × GhostEdges) (r s : String) (ru : Option String)
    (gh : GhostEdges)
    (hw : walkTokens O cfg rc tokens [] true = (some (.block r s ru), gh)) :
    runRules O .post ⟨cmd, tokens, cfg, d, rc⟩ rules
      = (some (.block r s (some (ru.getD "CoreAstRule"))), gh) := by
  simp [rules, runRules, homographRule, terminalInjectionRule, rawThreatRule,
    customRule, coreAstRule, hw, annotateRule, BlockResult.blockedB]

/-- The post phase is the result of the `CoreAstRule` walk — non-blocking
case. -/
theorem runRules_post_walk_none (O : Oracles) (cfg : Config) (cmd : String)
    (tokens : List ParsedEntry) (d : Nat)
    (rc : String → BlockResult × GhostEdges) (gh : GhostEdges)
    (hw : walkTokens O cfg rc tokens [] true = (none, gh)) :
    runRules O .post ⟨cmd, tokens, cfg, d, rc⟩ rules = (none, gh) := by
  simp [rules, runRules, homographRule, terminalInjectionRule, rawThreatRule,
    customRule, coreAstRule, hw, annotateRule]

/-- Every hit of the pattern loop is a `block` with no rule annotation. -/
theorem rtScan_shape (O : Oracles) (cmd : String) :
    ∀ entries b, rtScan O cmd entries = some b → ∃ r s, b = .block r s none := by
  intro entries
  induction entries with
  | nil => intro b h; simp [rtScan] at h
  | cons e rest ih =>
    intro b h
    simp only [rtScan] at h
    split at h
    · exact ⟨e.reason, e.suggestion, by simpa using h.symm⟩
    · exact ih b h

/-- The pre phase, evaluated: it is a function of the command alone
(the configuration, the depth and the recursive checker are never
consulted; `HomographRule` and `CustomRule` are skipped). -/
theorem runRules_pre_eval (O : Oracles) (cfg : Config) (cmd : String) (d : Nat)
    (rc : String → BlockResult × GhostEdges) :
    runRules O .pre ⟨cmd, [], cfg, d, rc⟩ rules = (preResult O cmd, []) := by
  rcases hti : checkTerminalInjection cmd with ⟨det, ro⟩
  cases det
  · by_cases hlen : cmd.length > MAX_INPUT_LENGTH
    · simp [rules, runRules, homographRule, terminalInjectionRule, rawThreatRule,
        preResult, hti, hlen, annotateRule, BlockResult.blockedB]
    · by_cases hdeep : (O.subshellCMatches cmd ≥ 4 && O.destructiveVerb cmd) = true
      · simp only [Bool.and_eq_true, decide_eq_true_eq] at hdeep
        simp [rules, runRules, homographRule, terminalInjectionRule, rawThreatRule,
          preResult, hti, hlen, hdeep.1, hdeep.2, annotateRule, BlockResult.blockedB]
      · rw [Bool.and_eq_true, decide_eq_true_eq] at hdeep
        rcases hscan : rtScan O cmd rawThreatPatterns with _ | b
        · simp [rules, runRules, homographRule, terminalInjectionRule, rawThreatRule,
            customRule, coreAstRule, preResult, hti, hlen, hdeep, hscan, annotateRule]
        · obtain ⟨r, s, rfl⟩ := rtScan_shape O cmd rawThreatPatterns b hscan
          simp [rules, runRules, homographRule, terminalInjectionRule, rawThreatRule,
            preResult, hti, hlen, hdeep, hscan, annotateRule, BlockResult.blockedB]
  · simp [rules, runRules, homographRule, terminalInjectionRule, preResult, hti,
      annotateRule, BlockResult.blockedB]

/-- The post phase, evaluated: it is the annotated outcome of the
`CoreAstRule` walk. -/
theorem runRules_post_eval (O : Oracles) (cfg : Config) (cmd : String)
    (tokens : List ParsedEntry) (d : Nat)
    (rc : String → BlockResult × GhostEdges) :
    runRules O .post ⟨cmd, tokens, cfg, d, rc⟩ rules
      = (match walkTokens O cfg rc tokens [] true with
         | (some (.block r s ru), gh) => (some (.block r s (some (ru.getD "CoreAstRule"))), gh)
         | (some .ok, gh) => (none, gh)
         | (none, gh) => (none, gh)) := by
  rcases hw : walkTokens O cfg rc tokens [] true with ⟨res, gh⟩
  rcases res with _ | b
  · simp [rules, runRules, homographRule, terminalInjectionRule, rawThreatRule,
      customRule, coreAstRule, hw, annotateRule]
  · rcases b with _ | ⟨r, s, ru⟩
    · simp [rules, runRules, homographRule, terminalInjectionRule, rawThreatRule,
        customRule, coreAstRule, hw, annotateRule, BlockResult.blockedB]
    · simp [rules, runRules, homographRule, terminalInjectionRule, rawThreatRule,
        customRule, coreAstRule, hw, annotateRule, BlockResult.blockedB]

/-- One step of the fuelled analyzer, in terms of `preResult` and the
`CoreAstRule` walk. -/
theorem analyzeFuel_succ_eval (O : Oracles) (cfg : Config) (fuel : Nat)
    (cmd : String) (d : Nat) :
    analyzeFuel O cfg (fuel + 1) cmd d
      = (if d > cfg.maxSubshellDepth then (depthBlock cfg.maxSubshellDepth, [])
        else
          match preResult O cmd with
          | some b => (b, [])
          | none =>
            match O.parse cmd with
            | none => (malformedBlock, [])
            | some tokens =>
              match walkTokens O cfg (analyzeRCF O cfg fuel d) tokens [] true with
              | (some (.block r s ru), gh) => (.block r s (some (ru.getD "CoreAstRule")), gh)
              | (some .ok, gh) => (.ok, gh)
              | (none, gh) => (.ok, gh)) := by
  rw [analyzeFuel]
  by_cases hd : d > cfg.maxSubshellDepth
  · rw [if_pos hd, if_pos hd]
  · rw [if_neg hd, if_neg hd]
    show (let pre := runRules O .pre ⟨cmd, [], cfg, d, analyzeRCF O cfg fuel d⟩ rules
      match pre.1 with
      | some b => (b, pre.2)
      | none =>
        match O.parse cmd with
        | none => (malformedBlock, pre.2)
        | some tokens =>
          let post := runRules O .post ⟨cmd, tokens, cfg, d, analyzeRCF O cfg fuel d⟩ rules
          match post.1 with
          | some b => (b, pre.2 ++ post.2)
          | none => (.ok, pre.2 ++ post.2)) = _
    rw [runRules_pre_eval]
    rcases hpre : preResult O cmd with _ | b
    · rcases hparse : O.parse cmd with _ | tokens
      · rfl
      · dsimp only
        rw [runRules_post_eval]
        rcases hw : walkTokens O cfg (analyzeRCF O cfg fuel d) tokens [] true with ⟨res, gh⟩
        rcases res with _ | b
        · rfl
        · rcases b with _ | ⟨r, s, ru⟩ <;> rfl
    · rfl

/-- `checkDestructive` below the depth limit, in terms of `preResult`
and the walk. -/
theorem checkDestructive_eval (O : Oracles) (cfg : Config) (cmd : String) (d : Nat) :
    checkDestructive O cfg cmd d
      = (if d > cfg.maxSubshellDepth then (depthBlock cfg.maxSubshellDepth, [])
        else
          match preResult O cmd with
          | some b => (b, [])
          | none =>
            match O.parse cmd with
            | none => (malformedBlock, [])
            | some tokens =>
              match walkTokens O cfg
                  (analyzeRCF O cfg (cfg.maxSubshellDepth + 1 - d) d) tokens [] true with
              | (some (.block r s ru), gh) => (.block r s (some (ru.getD "CoreAstRule")), gh)
              | (some .ok, gh) => (.ok, gh)
              | (none, gh) => (.ok, gh)) := by
  unfold checkDestructive
  exact analyzeFuel_succ_eval O cfg (cfg.maxSubshellDepth + 1 - d) cmd d

/-! ## Blocklist monotonicity (claim C7): blocked decisions carry
`blockedB = true`, and — with the shell-context override disabled — every
component of the walk blocks no less under a larger blocklist. -/

/-- A shell-context override decision is a block. -/
theorem checkShellContext_blocked (O : Oracles) (B : List String) (c : String)
    (b : BlockResult) (h : checkShellContext O B c = some b) : b.blockedB = true := by
  unfold checkShellContext at h
  repeat' split at h
  all_goals first
    | exact Option.noConfusion h
    | (injection h with h1; subst h1; rfl)

/-- A git-integration decision is a block. -/
theorem checkGitIntegration_blocked (O : Oracles) (tf : List String) (b : BlockResult)
    (h : checkGitIntegration O tf = some b) : b.blockedB = true := by
  unfold checkGitIntegration at h
  dsimp only at h
  repeat' split at h
  all_goals first
    | exact Option.noConfusion h
    | (injection h with h1; subst h1; rfl)

/-- A mapped block builder over a `find?` yields blocks. -/
theorem opt_blocked_of_map (o : Option String) (f : String → BlockResult)
    (b : BlockResult) (h : o.map f = some b)
    (hf : ∀ a, (f a).blockedB = true) : b.blockedB = true := by
  rcases Option.map_eq_some'.mp h with ⟨a, -, hfa⟩
  rw [← hfa]; exact hf a

/-- An `if`-guarded block source yields blocks. -/
theorem opt_blocked_ite (c : Prop) [Decidable c] (x : Option BlockResult)
    (b : BlockResult) (h : (if c then x else none) = some b)
    (hx : ∀ b2, x = some b2 → b2.blockedB = true) : b.blockedB = true := by
  split at h
  · exact hx b h
  · exact Option.noConfusion h

/-- A blocked-command decision is a block. -/
theorem checkBlockedCommand_blocked (O : Oracles) (c : String) (args B : List String)
    (t : Nat) (b : BlockResult) (h : checkBlockedCommand O c args B t = some b) :
    b.blockedB = true := by
  unfold checkBlockedCommand at h
  dsimp only at h
  repeat' split at h
  all_goals first
    | exact Option.noConfusion h
    | (injection h with h1; subst h1
       first
         | rfl
         | (rename_i hq
            first
              | exact checkGitIntegration_blocked O _ _ hq
              | exact opt_blocked_of_map _ _ _ hq (fun a => rfl)
              | exact opt_blocked_ite _ _ _ hq
                  (fun b2 hb2 => opt_blocked_of_map _ _ _ hb2 (fun a => rfl))
              | exact opt_blocked_ite _ _ _ hq
                  (fun b2 hb2 => opt_blocked_ite _ _ _ hb2
                    (fun b3 hb3 => opt_blocked_of_map _ _ _ hb3 (fun a => rfl)))))

/-- A `find`-flag-loop decision is a block. -/
theorem findFlagLoop_blocked (remaining : List ParsedEntry) (dc : List String) :
    ∀ (flags : List String) (b : BlockResult),
      findFlagLoop remaining dc flags = some b → b.blockedB = true := by
  intro flags
  induction flags with
  | nil => intro b h; exact Option.noConfusion h
  | cons flag rest ih =>
    intro b h
    unfold findFlagLoop at h
    dsimp only at h
    repeat' split at h
    all_goals first
      | exact ih b h
      | (injection h with h1; subst h1; rfl)

/-- A `find`-command decision is a block. -/
theorem checkFindCommand_blocked (ce : List ParsedEntry) (B : List String) :
    ∀ b, checkFindCommand ce B = some b → b.blockedB = true := by
  intro b h
  unfold checkFindCommand at h
  dsimp only at h
  split at h
  · injection h with h1; subst h1; rfl
  · exact findFlagLoop_blocked _ _ _ b h

/-- A `handleCommand` decision is a block (the subshell result is guarded
by its own `blockedB`). -/
theorem handleCommand_blocked (O : Oracles) (cfg : Config)
    (rc : String → BlockResult × GhostEdges) (entry : String)
    (ce : List ParsedEntry) (vars : VarMap) (r : BlockResult)
    (h : (handleCommand O cfg rc entry ce vars).1 = some r) : r.blockedB = true := by
  unfold handleCommand at h
  dsimp only at h
  repeat' split at h
  all_goals first
    | exact Option.noConfusion h
    | (injection h with h1; subst h1
       first
         | assumption
         | (rename_i hq
            first
              | exact checkShellContext_blocked O _ _ _ hq
              | exact checkBlockedCommand_blocked O _ _ _ _ _ hq
              | exact checkFindCommand_blocked _ _ _ hq
              | exact opt_blocked_ite _ _ _ hq (checkFindCommand_blocked _ _)))

/-- Under an empty shell-context snapshot the override check never fires. -/
theorem checkShellContext_empty (O : Oracles) (hsc : O.shellCtx = emptyShellCtx) :
    ∀ (B : List String) (c : String), checkShellContext O B c = none := by
  intro B c
  unfold checkShellContext
  rw [hsc]
  dsimp only [emptyShellCtx]
  split <;> rfl

/-- `checkBlockedCommand` consults the blocklist only through membership
of the resolved command. -/
theorem checkBlockedCommand_contains (O : Oracles) (c : String) (args : List String)
    (B B2 : List String) (t : Nat) (h : B.contains c = B2.contains c) :
    checkBlockedCommand O c args B t = checkBlockedCommand O c args B2 t := by
  unfold checkBlockedCommand
  rw [h]

/-- Adding a name to the blocklist never turns a `checkBlockedCommand`
block into an allow. -/
theorem checkBlockedCommand_mono (O : Oracles) (c : String) (args : List String)
    (B : List String) (t : Nat) (n : String)
    (h : checkBlockedCommand O c args (n :: B) t = none) :
    checkBlockedCommand O c args B t = none := by
  by_cases hB : B.contains c = true
  · have hB2 : (n :: B).contains c = true := by
      have hm := hB
      simp at hm ⊢
      exact Or.inr hm
    rw [checkBlockedCommand_contains O c args B (n :: B) t (by rw [hB, hB2])]
    exact h
  · unfold checkBlockedCommand at h ⊢
    dsimp only at h ⊢
    split at h
    · rename_i hdd
      rw [if_pos hdd]
      exact h
    · rename_i hdd
      rw [if_neg hdd]
      split at h
      · exact Option.noConfusion h
      · split at h
        · exact Option.noConfusion h
        · split at h
          · rename_i hsys
            rw [if_pos hsys]
            exact h
          · rename_i hsys
            rw [if_neg hsys]
            have hBf : (!B.contains c) = true := by
              cases hx : B.contains c
              · rfl
              · exact absurd hx hB
            rw [if_pos hBf]

/-- `isDangerousExec` is monotone in the dangerous-command list. -/
theorem isDangerousExec_mono (e : ParsedEntry) (D D2 : List String)
    (hsub : ∀ x, D.contains x = true → D2.contains x = true)
    (h : isDangerousExec e D2 = false) : isDangerousExec e D = false := by
  cases e with
  | word w =>
    simp only [isDangerousExec] at h ⊢
    cases hx : D.contains (normalizeCommandName w)
    · rfl
    · rw [hsub _ hx] at h
      exact h
  | op o => rfl

/-- The `find`-flag loop is monotone in the dangerous-command list. -/
theorem findFlagLoop_mono (remaining : List ParsedEntry) (D D2 : List String)
    (hsub : ∀ x, D.contains x = true → D2.contains x = true) :
    ∀ flags : List String,
      findFlagLoop remaining D2 flags = none → findFlagLoop remaining D flags = none := by
  intro flags
  induction flags with
  | nil => intro _; rfl
  | cons flag rest ih =>
    intro h
    unfold findFlagLoop at h ⊢
    dsimp only at h ⊢
    cases hidx : remaining.findIdx? (fun e =>
        match e with
        | .word w => strLower w = flag
        | .op _ => false) <;>
      rw [hidx] at h
    case none => exact ih h
    case some i =>
      dsimp only at h ⊢
      by_cases hlt : i + 1 < remaining.length
      · rw [if_pos hlt] at h ⊢
        cases hget : remaining[i + 1]? <;> rw [hget] at h
        case pos.none => exact ih h
        case pos.some e =>
          dsimp only at h ⊢
          cases e with
          | op o => exact ih h
          | word w =>
            dsimp only at h ⊢
            cases hde2 : isDangerousExec (.word w) D2 <;> rw [hde2] at h
            · have hde : isDangerousExec (.word w) D = false :=
                isDangerousExec_mono _ _ _ hsub hde2
              rw [hde]
              simp only [Bool.false_eq_true, if_false] at h ⊢
              exact ih h
            · simp only [if_pos rfl] at h
              exact Option.noConfusion h
      · rw [if_neg hlt] at h ⊢
        exact ih h

/-- `checkFindCommand` is monotone in the blocklist. -/
theorem checkFindCommand_mono (ce : List ParsedEntry) (B : List String) (n : String)
    (h : checkFindCommand ce (n :: B) = none) : checkFindCommand ce B = none := by
  unfold checkFindCommand at h ⊢
  dsimp only at h ⊢
  split at h
  · exact Option.noConfusion h
  · rename_i hdel
    rw [if_neg hdel]
    refine findFlagLoop_mono ce _ _ ?_ _ h
    intro x hx
    simp at hx ⊢
    tauto

/-- With the shell-context override disabled, `handleCommand` allows no
more under a larger blocklist (provided the recursive checker does not
either). -/
theorem handleCommand_mono (O : Oracles) (cfg : Config) (n : String)
    (rc rcB : String → BlockResult × GhostEdges)
    (hsc : O.shellCtx = emptyShellCtx)
    (hrc : ∀ s, (rcB s).1.blockedB = false → (rc s).1.blockedB = false)
    (entry : String) (ce : List ParsedEntry) (vars : VarMap)
    (h : (handleCommand O {cfg with blocked := n :: cfg.blocked} rcB entry ce vars).1 = none) :
    (handleCommand O cfg rc entry ce vars).1 = none := by
  unfold handleCommand at h ⊢
  dsimp only at h ⊢
  rw [checkShellContext_empty O hsc] at h ⊢
  dsimp only at h ⊢
  by_cases hall : cfg.allowed.contains (resolveCmdName O entry vars) = true
  · rw [if_pos hall]
  · rw [if_neg hall] at h ⊢
    cases hcbc : checkBlockedCommand O (resolveCmdName O entry vars) (getCommandArgs ce)
        (n :: cfg.blocked) cfg.threshold with
    | some b =>
      rw [hcbc] at h
      exact Option.noConfusion h
    | none =>
      rw [hcbc] at h
      rw [checkBlockedCommand_mono O _ _ _ _ n hcbc]
      dsimp only at h ⊢
      cases hff : (if resolveCmdName O entry vars = "find"
          then checkFindCommand ce (n :: cfg.blocked) else none) with
      | some b =>
        rw [hff] at h
        exact Option.noConfusion h
      | none =>
        rw [hff] at h
        have hgf : (if resolveCmdName O entry vars = "find"
            then checkFindCommand ce cfg.blocked else none) = none := by
          by_cases hf : resolveCmdName O entry vars = "find"
          · rw [if_pos hf] at hff ⊢
            exact checkFindCommand_mono ce cfg.blocked n hff
          · rw [if_neg hf]
        rw [hgf]
        dsimp only at h ⊢
        by_cases hsh : SHELL_COMMANDS.contains (resolveCmdName O entry vars) = true
        · rw [if_pos hsh] at h ⊢
          rcases hfind : (List.drop 0 ce).findIdx? (fun e => e = .word "-c") with _ | cIdx
          · have hn : ∀ rc2 : String → BlockResult × GhostEdges,
                (checkSubshellCommand ce 0 rc2).1 = none := by
              intro rc2
              unfold checkSubshellCommand
              dsimp only
              rw [hfind]
            rw [hn rcB] at h
            rw [hn rc]
          · by_cases hlen : 0 + cIdx + 1 ≥ ce.length
            · have hn : ∀ rc2 : String → BlockResult × GhostEdges,
                  (checkSubshellCommand ce 0 rc2).1 = none := by
                intro rc2
                unfold checkSubshellCommand
                dsimp only
                rw [hfind]
                dsimp only
                rw [if_pos hlen]
              rw [hn rcB] at h
              rw [hn rc]
            · cases hget : ce[0 + cIdx + 1]? with
              | none =>
                have hn : ∀ rc2 : String → BlockResult × GhostEdges,
                    (checkSubshellCommand ce 0 rc2).1 = none := by
                  intro rc2
                  unfold checkSubshellCommand
                  dsimp only
                  rw [hfind]
                  dsimp only
                  rw [if_neg hlen]
                  rw [hget]
                rw [hn rcB] at h
                rw [hn rc]
              | some e =>
                cases e with
                | op o =>
                  have hn : ∀ rc2 : String → BlockResult × GhostEdges,
                      (checkSubshellCommand ce 0 rc2).1 = none := by
                    intro rc2
                    unfold checkSubshellCommand
                    dsimp only
                    rw [hfind]
                    dsimp only
                    rw [if_neg hlen]
                    rw [hget]
                  rw [hn rcB] at h
                  rw [hn rc]
                | word c =>
                  have hs : ∀ rc2 : String → BlockResult × GhostEdges,
                      (checkSubshellCommand ce 0 rc2).1 = some (rc2 c).1
                        ∧ (checkSubshellCommand ce 0 rc2).2 = (rc2 c).2 := by
                    intro rc2
                    unfold checkSubshellCommand
                    dsimp only
                    rw [hfind]
                    dsimp only
                    rw [if_neg hlen]
                    rw [hget]
                    exact ⟨rfl, rfl⟩
                  rw [(hs rcB).1] at h
                  rw [(hs rc).1]
                  dsimp only at h ⊢
                  by_cases hb2 : (rcB c).1.blockedB = true
                  · rw [if_pos hb2] at h
                    exact Option.noConfusion h
                  · have hbf : (rc c).1.blockedB = false := by
                      apply hrc
                      cases hx : (rcB c).1.blockedB
                      · rfl
                      · exact absurd hx hb2
                    rw [if_neg (by rw [hbf]; exact Bool.false_ne_true)]
        · rw [if_neg hsh]

/-- With the shell-context override disabled, a walk step under the
larger blocklist that continues (or halts without blocking) is matched by
the smaller-blocklist step with the same successor state. -/
theorem walkStep_align (O : Oracles) (cfg : Config) (n : String)
    (rc rcB : String → BlockResult × GhostEdges)
    (hsc : O.shellCtx = emptyShellCtx)
    (hrc : ∀ s, (rcB s).1.blockedB = false → (rc s).1.blockedB = false)
    (entry : ParsedEntry) (rest : List ParsedEntry) (vars : VarMap) (nmc : Bool) :
    (∀ v m gh, walkStep O {cfg with blocked := n :: cfg.blocked} rcB entry rest vars nmc
        = .go1 v m gh → ∃ gh2, walkStep O cfg rc entry rest vars nmc = .go1 v m gh2)
    ∧ (∀ v m gh, walkStep O {cfg with blocked := n :: cfg.blocked} rcB entry rest vars nmc
        = .go2 v m gh → ∃ gh2, walkStep O cfg rc entry rest vars nmc = .go2 v m gh2)
    ∧ (∀ r gh, r.blockedB = false →
        walkStep O {cfg with blocked := n :: cfg.blocked} rcB entry rest vars nmc
          = .halt r gh → ∃ gh2, walkStep O cfg rc entry rest vars nmc = .halt r gh2) := by
  cases entry with
  | op o =>
    refine ⟨fun v m gh h => ⟨gh, ?_⟩, fun v m gh h => ⟨gh, ?_⟩, fun r gh _ h => ⟨gh, ?_⟩⟩ <;>
      (unfold walkStep at h ⊢; dsimp only at h ⊢; exact h)
  | word w =>
    have hcw : handleCurlWget O {cfg with blocked := n :: cfg.blocked} = handleCurlWget O cfg :=
      rfl
    unfold walkStep
    dsimp only
    rw [hcw]
    by_cases h1 : nmc = false
    · simp only [if_pos h1]
      exact ⟨fun v m gh h => ⟨gh, h⟩, fun v m gh h => ⟨gh, h⟩, fun r gh _ h => ⟨gh, h⟩⟩
    · simp only [if_neg h1]
      by_cases h2 : (checkEnvironmentVariable w vars).1 = true
      · simp only [if_pos h2]
        exact ⟨fun v m gh h => ⟨gh, h⟩, fun v m gh h => ⟨gh, h⟩, fun r gh _ h => ⟨gh, h⟩⟩
      · simp only [if_neg h2]
        cases hcu : handleCurlWget O cfg
            (normalizeCommandName
              (if resolveVariable O w vars = "" then w else resolveVariable O w vars))
            rest (sliceUntilOperators rest CONTROL_OPERATORS)
            (sliceUntilOperators (sliceUntilOperators rest CONTROL_OPERATORS)
              COMMAND_BOUNDARY_OPERATORS) vars with
        | some b =>
          simp only [hcu]
          exact ⟨fun v m gh h => ⟨gh, h⟩, fun v m gh h => ⟨gh, h⟩, fun r gh _ h => ⟨gh, h⟩⟩
        | none =>
          simp only [hcu]
          cases hba : handleBashSubshells O
              (normalizeCommandName
                (if resolveVariable O w vars = "" then w else resolveVariable O w vars))
              (sliceUntilOperators rest CONTROL_OPERATORS) vars with
          | some b =>
            simp only [hba]
            exact ⟨fun v m gh h => ⟨gh, h⟩, fun v m gh h => ⟨gh, h⟩, fun r gh _ h => ⟨gh, h⟩⟩
          | none =>
            simp only [hba]
            by_cases h3 : isCommandPrefixWord
                (normalizeCommandName
                  (if resolveVariable O w vars = "" then w
                   else resolveVariable O w vars)) = true
            · simp only [if_pos h3]
              exact ⟨fun v m gh h => ⟨gh, h⟩, fun v m gh h => ⟨gh, h⟩, fun r gh _ h => ⟨gh, h⟩⟩
            · simp only [if_neg h3]
              by_cases h4 : normalizeCommandName
                    (if resolveVariable O w vars = "" then w else resolveVariable O w vars)
                    = "git"
                  ∧ isGitRm (sliceUntilOperators
                      (sliceUntilOperators rest CONTROL_OPERATORS)
                      COMMAND_BOUNDARY_OPERATORS).head? = true
              · simp only [if_pos h4]
                exact ⟨fun v m gh h => ⟨gh, h⟩, fun v m gh h => ⟨gh, h⟩,
                  fun r gh _ h => ⟨gh, h⟩⟩
              · simp only [if_neg h4]
                cases hhc : (handleCommand O {cfg with blocked := n :: cfg.blocked} rcB
                    (if resolveVariable O w vars = "" then w else resolveVariable O w vars)
                    (sliceUntilOperators (sliceUntilOperators rest CONTROL_OPERATORS)
                      COMMAND_BOUNDARY_OPERATORS) vars).1 with
                | some r2 =>
                  simp only [hhc]
                  refine ⟨fun v m gh h => StepRes.noConfusion h,
                    fun v m gh h => StepRes.noConfusion h, ?_⟩
                  intro r gh hrb h
                  injection h with hh1 hh2
                  subst hh1
                  have hbl := handleCommand_blocked O _ rcB _ _ vars _ hhc
                  rw [hbl] at hrb
                  exact Bool.noConfusion hrb
                | none =>
                  simp only [hhc]
                  have hgc : (handleCommand O cfg rc
                      (if resolveVariable O w vars = "" then w else resolveVariable O w vars)
                      (sliceUntilOperators (sliceUntilOperators rest CONTROL_OPERATORS)
                        COMMAND_BOUNDARY_OPERATORS) vars).1 = none :=
                    handleCommand_mono O cfg n rc rcB hsc hrc _ _ vars hhc
                  simp only [hgc]
                  refine ⟨?_, fun v m gh h => StepRes.noConfusion h,
                    fun r gh _ h => StepRes.noConfusion h⟩
                  intro v m gh h
                  injection h with hh1 hh2 hh3
                  subst hh1
                  subst hh2
                  exact ⟨_, rfl⟩

/-- With the shell-context override disabled, a walk under the larger
blocklist that does not block is matched by a non-blocking walk under the
smaller blocklist. -/
theorem walkTokens_align (O : Oracles) (cfg : Config) (n : String)
    (rc rcB : String → BlockResult × GhostEdges)
    (hsc : O.shellCtx = emptyShellCtx)
    (hrc : ∀ s, (rcB s).1.blockedB = false → (rc s).1.blockedB = false) :
    ∀ (l : List ParsedEntry) (vars : VarMap) (nmc : Bool),
      (∀ r, (walkTokens O {cfg with blocked := n :: cfg.blocked} rcB l vars nmc).1 = some r →
        r.blockedB = false) →
      ∀ r2, (walkTokens O cfg rc l vars nmc).1 = some r2 → r2.blockedB = false := by
  suffices hsuf : ∀ (k : Nat) (l : List ParsedEntry), l.length ≤ k →
      ∀ (vars : VarMap) (nmc : Bool),
        (∀ r, (walkTokens O {cfg with blocked := n :: cfg.blocked} rcB l vars nmc).1 = some r →
          r.blockedB = false) →
        ∀ r2, (walkTokens O cfg rc l vars nmc).1 = some r2 → r2.blockedB = false by
    intro l vars nmc h r2 h2
    exact hsuf l.length l le_rfl vars nmc h r2 h2
  intro k
  induction k with
  | zero =>
    intro l hl vars nmc _ r2 h2
    rw [List.length_eq_zero.mp (Nat.le_zero.mp hl)] at h2
    exact Option.noConfusion h2
  | succ k ih =>
    intro l hl vars nmc hB r2 h2
    cases l with
    | nil => exact Option.noConfusion h2
    | cons entry rest =>
      have halign := walkStep_align O cfg n rc rcB hsc hrc entry rest vars nmc
      rcases hsB : walkStep O {cfg with blocked := n :: cfg.blocked} rcB entry rest vars nmc
        with ⟨r, gh⟩ | ⟨v2, n2, gh⟩ | ⟨v2, n2, gh⟩
      · have hrF : r.blockedB = false := hB r (by simp [walkTokens, hsB])
        obtain ⟨gh2, hs⟩ := halign.2.2 r gh hrF hsB
        rw [walkTokens, hs] at h2
        simp only at h2
        obtain rfl : r = r2 := by simpa using h2
        exact hrF
      · obtain ⟨gh2, hs⟩ := halign.1 v2 n2 gh hsB
        rw [walkTokens, hs] at h2
        refine ih rest (by simp at hl; omega) v2 n2 ?_ r2 (by simpa using h2)
        intro r hr
        exact hB r (by simp [walkTokens, hsB]; simpa using hr)
      · obtain ⟨gh2, hs⟩ := halign.2.1 v2 n2 gh hsB
        rw [walkTokens, hs] at h2
        cases rest with
        | nil => simp at h2
        | cons t rest2 =>
          refine ih rest2 (by simp at hl; omega) v2 n2 ?_ r2 (by simpa using h2)
          intro r hr
          exact hB r (by simp [walkTokens, hsB]; simpa using hr)

/-- With the shell-context override disabled, the fuelled analyzer blocks
no less under a larger blocklist. -/
theorem analyzeFuel_mono (O : Oracles) (cfg : Config) (n : String)
    (hsc : O.shellCtx = emptyShellCtx) :
    ∀ (fuel : Nat) (cmd : String) (d : Nat),
      (analyzeFuel O {cfg with blocked := n :: cfg.blocked} fuel cmd d).1.blockedB = false →
      (analyzeFuel O cfg fuel cmd d).1.blockedB = false := by
  intro fuel
  induction fuel with
  | zero => intro cmd d h; exact h
  | succ f ih =>
    intro cmd d h
    rw [analyzeFuel_succ_eval] at h ⊢
    have hmd : ({cfg with blocked := n :: cfg.blocked} : Config).maxSubshellDepth
        = cfg.maxSubshellDepth := rfl
    rw [hmd] at h
    by_cases hd : d > cfg.maxSubshellDepth
    · rw [if_pos hd] at h
      exact absurd h (by simp [depthBlock, BlockResult.blockedB])
    · rw [if_neg hd] at h ⊢
      cases hpre : preResult O cmd with
      | some b =>
        rw [hpre] at h
        exact h
      | none =>
        rw [hpre] at h
        cases hparse : O.parse cmd with
        | none =>
          rw [hparse] at h
          exact h
        | some tokens =>
          rw [hparse] at h
          dsimp only at h ⊢
          have hrc : ∀ s,
              (analyzeRCF O {cfg with blocked := n :: cfg.blocked} f d s).1.blockedB = false →
              (analyzeRCF O cfg f d s).1.blockedB = false := fun s hs => ih s (d + 1) hs
          rcases hwB : walkTokens O {cfg with blocked := n :: cfg.blocked}
              (analyzeRCF O {cfg with blocked := n :: cfg.blocked} f d) tokens [] true
            with ⟨resB, ghB⟩
          rw [hwB] at h
          have hall : ∀ r, resB = some r → r.blockedB = false := by
            intro r hr
            subst hr
            cases r with
            | ok => rfl
            | block a b c =>
              exact absurd h (by simp [BlockResult.blockedB])
          have htr := walkTokens_align O cfg n (analyzeRCF O cfg f d)
            (analyzeRCF O {cfg with blocked := n :: cfg.blocked} f d) hsc hrc tokens [] true
            (fun r hr => hall r (by rw [hwB] at hr; exact hr))
          rcases hw : walkTokens O cfg (analyzeRCF O cfg f d) tokens [] true with ⟨res, gh⟩
          rw [hw] at htr
          cases res with
          | none => rfl
          | some b =>
            cases b with
            | ok => rfl
            | block a b c =>
              exact absurd (htr _ rfl) (by simp [BlockResult.blockedB])

/-! ## Evaluation of the pipe-to-shell command shape (claim C2) -/

/-- `String.mk` is left inverse to `String.data`. -/
theorem strMkData (s : String) : String.mk s.data = s := rfl

/-- `takeWhile` passes over a prefix it accepts entirely. -/
theorem twAppendAll (q : Char → Bool) (l1 l2 : List Char)
    (h : ∀ c ∈ l1, q c = true) :
    List.takeWhile q (l1 ++ l2) = l1 ++ List.takeWhile q l2 := by
  induction l1 with
  | nil => rfl
  | cons c cs ih =>
    rw [List.cons_append, List.takeWhile_cons, h c (by simp)]
    rw [ih (fun x hx => h x (by simp [hx]))]
    rfl

/-- `takeWhile` keeps a list it accepts entirely. -/
theorem twAll (q : Char → Bool) (l : List Char) (h : ∀ c ∈ l, q c = true) :
    List.takeWhile q l = l := by
  induction l with
  | nil => rfl
  | cons c cs ih =>
    rw [List.takeWhile_cons, h c (by simp), if_pos rfl]
    rw [ih (fun x hx => h x (by simp [hx]))]

/-- Lowercasing over already-lowercase characters is the identity. -/
theorem lowerLId (l : List Char) (h : ∀ c ∈ l, jsLowerChar c = c) : lowerL l = l := by
  induction l with
  | nil => rfl
  | cons c cs ih =>
    show jsLowerChar c :: lowerL cs = c :: cs
    rw [h c (by simp), ih (fun x hx => h x (by simp [hx]))]

/-- A character list does not contain an absent character. -/
theorem listContainsFalse (l : List Char) (x : Char)
    (h : ∀ c ∈ l, (x == c) = false) : l.contains x = false := by
  induction l with
  | nil => rfl
  | cons c cs ih =>
    show (x == c || cs.contains x) = false
    rw [h c (by simp), ih (fun y hy => h y (by simp [hy]))]
    rfl

/-- A pattern whose first character is absent from a list never occurs in
it. -/
theorem containsSub_head_absent (l : List Char) (a : Char) (pat : List Char)
    (h : ∀ c ∈ l, decide (a = c) = false) : containsSub l (a :: pat) = false := by
  induction l with
  | nil => rfl
  | cons c cs ih =>
    show (listStartsWith (a :: pat) (c :: cs) || containsSub cs (a :: pat)) = false
    rw [ih (fun x hx => h x (by simp [hx]))]
    rw [show listStartsWith (a :: pat) (c :: cs)
        = (decide (a = c) && listStartsWith pat cs) from rfl]
    rw [h c (by simp)]
    rfl

/-- Every character of claim C2's command lies in the C2 pool. -/
theorem c2PipeCmdMem (host p : String) (hh : hostOk host = true) (hp : pathOk p = true) :
    ∀ c ∈ (pipeCmd host p).data, c ∈ c2AllChars := by
  have hhost : ∀ c ∈ host.data, c ∈ hostCharList := by
    have h2 := hh
    unfold hostOk at h2
    rw [Bool.and_eq_true, List.all_eq_true] at h2
    intro c hc
    have h3 := h2.2 c hc
    simpa using h3
  have hpath : ∀ c ∈ p.data, c ∈ pathCharList := by
    have h2 := hp
    unfold pathOk at h2
    rw [List.all_eq_true] at h2
    intro c hc
    have h3 := h2 c hc
    simpa using h3
  have hlit1 : ∀ c ∈ ("curl -sSL " : String).data, c ∈ c2AllChars := by decide
  have hlit2 : ∀ c ∈ ("https://" : String).data, c ∈ c2AllChars := by decide
  have hlit3 : ∀ c ∈ ("/" : String).data, c ∈ c2AllChars := by decide
  have hlit4 : ∀ c ∈ (" | bash" : String).data, c ∈ c2AllChars := by decide
  have hhsub : ∀ c ∈ hostCharList, c ∈ c2AllChars := by decide
  have hpsub : ∀ c ∈ pathCharList, c ∈ c2AllChars := by decide
  intro c hc
  simp only [pipeCmd, pipeUrl, strDataAppend, List.mem_append] at hc
  rcases hc with ((h1 | ((h2 | h3) | h4) | h5) | h6)
  · exact hlit1 c h1
  · exact hlit2 c h2
  · exact hhsub c (hhost c h3)
  · exact hlit3 c h4
  · exact hpsub c (hpath c h5)
  · exact hlit4 c h6

/-- Every character of claim C2's URL lies in the C2 pool. -/
theorem c2PipeUrlMem (host p : String) (hh : hostOk host = true) (hp : pathOk p = true) :
    ∀ c ∈ (pipeUrl host p).data, c ∈ c2AllChars := by
  have hhost : ∀ c ∈ host.data, c ∈ hostCharList := by
    have h2 := hh
    unfold hostOk at h2
    rw [Bool.and_eq_true, List.all_eq_true] at h2
    intro c hc
    have h3 := h2.2 c hc
    simpa using h3
  have hpath : ∀ c ∈ p.data, c ∈ pathCharList := by
    have h2 := hp
    unfold pathOk at h2
    rw [List.all_eq_true] at h2
    intro c hc
    have h3 := h2 c hc
    simpa using h3
  have hlit2 : ∀ c ∈ ("https://" : String).data, c ∈ c2AllChars := by decide
  have hlit3 : ∀ c ∈ ("/" : String).data, c ∈ c2AllChars := by decide
  have hhsub : ∀ c ∈ hostCharList, c ∈ c2AllChars := by decide
  have hpsub : ∀ c ∈ pathCharList, c ∈ c2AllChars := by decide
  intro c hc
  simp only [pipeUrl, strDataAppend, List.mem_append] at hc
  rcases hc with (((h2 | h3) | h4) | h5)
  · exact hlit2 c h2
  · exact hhsub c (hhost c h3)
  · exact hlit3 c h4
  · exact hpsub c (hpath c h5)

/-- The terminal-injection validator passes claim C2's command. -/
theorem c2PipeCmdTI (host p : String) (hh : hostOk host = true) (hp : pathOk p = true) :
    checkTerminalInjection (pipeCmd host p) = ⟨false, none⟩ := by
  have hmem := c2PipeCmdMem host p hh hp
  have hesc : ∀ c ∈ c2AllChars, decide (Char.ofNat 0x1b = c) = false := by decide
  have hhid : ∀ c ∈ c2AllChars, isHiddenChar c = false := by decide
  unfold checkTerminalInjection
  rw [containsSub_head_absent _ _ _ (fun c hc => hesc c (hmem c hc))]
  rw [List.any_eq_false.mpr
    (fun c hc h2 => Bool.noConfusion ((hhid c (hmem c hc)).symm.trans h2))]
  rfl

/-- Claim C2's URL contains no `@`. -/
theorem c2UrlNoAt (host p : String) (hh : hostOk host = true) (hp : pathOk p = true) :
    strIncludes (pipeUrl host p) "@" = false := by
  have hmem := c2PipeUrlMem host p hh hp
  have hat : ∀ c ∈ c2AllChars, decide ('@' = c) = false := by decide
  show containsSub (pipeUrl host p).data ('@' :: []) = false
  exact containsSub_head_absent _ _ _ (fun c hc => hat c (hmem c hc))

/-- Claim C2's URL contains no `=`. -/
theorem c2UrlNoEq (host p : String) (hh : hostOk host = true) (hp : pathOk p = true) :
    strIncludes (pipeUrl host p) "=" = false := by
  have hmem := c2PipeUrlMem host p hh hp
  have heq : ∀ c ∈ c2AllChars, decide ('=' = c) = false := by decide
  show containsSub (pipeUrl host p).data ('=' :: []) = false
  exact containsSub_head_absent _ _ _ (fun c hc => heq c (hmem c hc))

/-- `new URL` extracts exactly `<host>` from claim C2's URL. -/
theorem c2UrlHostname (host p : String) (hh : hostOk host = true) (hp : pathOk p = true) :
    jsUrlHostname (pipeUrl host p) = some host := by
  have hhost : ∀ c ∈ host.data, c ∈ hostCharList := by
    have h2 := hh
    unfold hostOk at h2
    rw [Bool.and_eq_true, List.all_eq_true] at h2
    intro c hc
    have h3 := h2.2 c hc
    simpa using h3
  have hne : host.data.isEmpty = false := by
    have h2 := hh
    unfold hostOk at h2
    rw [Bool.and_eq_true] at h2
    have h3 := h2.1
    cases hx : host.data.isEmpty
    · rfl
    · rw [hx] at h3
      exact absurd h3 (by decide)
  have hdrop : (pipeUrl host p).data.drop 8 = host.data ++ ('/' :: p.data) := by
    show ((("https://" ++ host) ++ "/") ++ p).data.drop 8 = _
    rw [strDataAppend, strDataAppend, strDataAppend]
    rw [List.append_assoc, List.append_assoc]
    rw [show (8 : Nat) = ("https://" : String).data.length from rfl, List.drop_left]
    rfl
  have htwSlash : ∀ c ∈ hostCharList,
      (decide (c ≠ '/' ∧ c ≠ '?' ∧ c ≠ '#')) = true := by decide
  have htwColon : ∀ c ∈ hostCharList, (decide (c ≠ ':')) = true := by decide
  have hlow : ∀ c ∈ hostCharList, jsLowerChar c = c := by decide
  have hnoAt : ∀ c ∈ hostCharList, (('@' : Char) == c) = false := by decide
  unfold jsUrlHostname jsUrlAuthority jsUrlAfterScheme
  rw [show strStarts (pipeUrl host p) "https://" = true from rfl, if_pos rfl]
  rw [hdrop, Option.map_some']
  dsimp only
  rw [twAppendAll _ host.data ('/' :: p.data)
    (fun c hc => htwSlash c (hhost c hc))]
  rw [show List.takeWhile (fun c => decide (c ≠ '/' ∧ c ≠ '?' ∧ c ≠ '#'))
      ('/' :: p.data) = [] from rfl]
  rw [List.append_nil]
  rw [listContainsFalse host.data '@' (fun c hc => hnoAt c (hhost c hc)),
    if_neg Bool.false_ne_true]
  rw [twAll _ host.data (fun c hc => htwColon c (hhost c hc))]
  rw [lowerLId host.data (fun c hc => hlow c (hhost c hc))]
  rw [hne, if_neg Bool.false_ne_true]

/-- `isTrustedDomain` on claim C2's URL is exactly the claimed host
predicate. -/
theorem c2UrlTrusted (host p : String) (hh : hostOk host = true) (hp : pathOk p = true)
    (td : List String) :
    isTrustedDomain (pipeUrl host p) td = hostTrusted host td := by
  unfold isTrustedDomain
  rw [c2UrlHostname host p hh hp]
  rfl

/-- `checkPipeToShell` on claim C2's arguments blocks exactly the
untrusted hosts. -/
theorem c2PipeToShell (host p : String) (hh : hostOk host = true) (hp : pathOk p = true)
    (td : List String) :
    checkPipeToShell ["-sSL", pipeUrl host p]
      [.word "-sSL", .word (pipeUrl host p), .op "|", .word "bash"] td
      = (if hostTrusted host td = true then none else some pipeShellBlock) := by
  have hcred : checkUrlCredentials ["-sSL", pipeUrl host p] = none := by
    show checkUrlCredentials [pipeUrl host p] = none
    unfold checkUrlCredentials
    rw [show strIncludes (pipeUrl host p) "://" = true from rfl]
    rw [c2UrlNoAt host p hh hp]
    rfl
  unfold checkPipeToShell
  rw [hcred]
  dsimp only
  rw [show checkTransportSecurity ["-sSL", pipeUrl host p] = none from rfl]
  dsimp only
  rw [show getFirstUrlArg ["-sSL", pipeUrl host p] = some (pipeUrl host p) from rfl]
  dsimp only
  rw [c2UrlTrusted host p hh hp td]
  by_cases ht : hostTrusted host td = true
  · rw [if_pos ht]
    rw [show (getPipeTargets
        [.word "-sSL", .word (pipeUrl host p), .op "|", .word "bash"]).length = 1
      from rfl]
    rw [ht]
    rfl
  · rw [if_neg ht]
    have ht2 : hostTrusted host td = false := by
      cases hx : hostTrusted host td
      · rfl
      · exact absurd hx ht
    rw [ht2]
    rfl

/-- `handleCurlWget` on claim C2's first command blocks exactly the
untrusted hosts. -/
theorem c2HandleCurl (O : Oracles) (td : List String) (host p : String)
    (hh : hostOk host = true) (hp : pathOk p = true) :
    handleCurlWget O {defaultConfig with trustedDomains := td} "curl"
      [.word "-sSL", .word (pipeUrl host p), .op "|", .word "bash"]
      [.word "-sSL", .word (pipeUrl host p), .op "|", .word "bash"]
      [.word "-sSL", .word (pipeUrl host p)] []
      = (if hostTrusted host td = true then none else some pipeShellBlock) := by
  have hdl : checkDownloadAndExec O
      [.word "-sSL", .word (pipeUrl host p), .op "|", .word "bash"]
      ["-sSL", pipeUrl host p] "curl" [] = none := by
    unfold checkDownloadAndExec
    dsimp only
    split
    · rfl
    · rfl
  unfold handleCurlWget
  rw [if_neg (by simp)]
  dsimp only
  rw [show getCommandArgs [.word "-sSL", .word (pipeUrl host p)]
      = ["-sSL", pipeUrl host p] from rfl]
  rw [c2PipeToShell host p hh hp td]
  by_cases ht : hostTrusted host td = true
  · rw [if_pos ht]
    dsimp only
    exact hdl
  · rw [if_neg ht]

/-- The walk over claim C2's token stream blocks exactly the untrusted
hosts, with no recursion. -/
theorem c2Walk (O : Oracles) (td : List String) (host p : String)
    (rc : String → BlockResult × GhostEdges)
    (hh : hostOk host = true) (hp : pathOk p = true)
    (hsc : O.shellCtx = emptyShellCtx) :
    walkTokens O {defaultConfig with trustedDomains := td} rc (pipeTokens host p) [] true
      = ((if hostTrusted host td = true then none else some pipeShellBlock), []) := by
  have hctx := checkShellContext_empty O hsc
  have hhcCurl : handleCommand O {defaultConfig with trustedDomains := td} rc "curl"
      [.word "-sSL", .word (pipeUrl host p)] [] = (none, []) := by
    unfold handleCommand
    dsimp only
    rw [hctx]
    rfl
  have hhcBash : handleCommand O {defaultConfig with trustedDomains := td} rc "bash"
      [] [] = (none, []) := by
    unfold handleCommand
    dsimp only
    rw [hctx]
    rfl
  have hcev : checkEnvironmentVariable (pipeUrl host p) [] = (false, []) := by
    unfold checkEnvironmentVariable
    rw [c2UrlNoEq host p hh hp, Bool.false_and]
    rfl
  have hs1 : walkStep O {defaultConfig with trustedDomains := td} rc (.word "curl")
      [.word "-sSL", .word (pipeUrl host p), .op "|", .word "bash"] [] true
      = (if hostTrusted host td = true then .go1 [] false []
         else .halt pipeShellBlock []) := by
    unfold walkStep
    dsimp only
    rw [show (if resolveVariable O "curl" ([] : VarMap) = "" then "curl"
        else resolveVariable O "curl" ([] : VarMap)) = "curl" from rfl]
    rw [show normalizeCommandName "curl" = "curl" from rfl]
    rw [show sliceUntilOperators
        [.word "-sSL", .word (pipeUrl host p), .op "|", .word "bash"] CONTROL_OPERATORS
        = [.word "-sSL", .word (pipeUrl host p), .op "|", .word "bash"] from rfl]
    rw [show sliceUntilOperators
        [.word "-sSL", .word (pipeUrl host p), .op "|", .word "bash"]
        COMMAND_BOUNDARY_OPERATORS
        = [.word "-sSL", .word (pipeUrl host p)] from rfl]
    rw [c2HandleCurl O td host p hh hp]
    by_cases ht : hostTrusted host td = true
    · rw [if_pos ht, if_pos ht]
      dsimp only
      rw [hhcCurl]
      rfl
    · rw [if_neg ht, if_neg ht]
      rfl
  have hs3 : walkStep O {defaultConfig with trustedDomains := td} rc
      (.word (pipeUrl host p)) [.op "|", .word "bash"] [] false
      = .go1 [] false [] := by
    unfold walkStep
    dsimp only
    rw [if_pos rfl]
    rw [hcev]
    rfl
  have hs5 : walkStep O {defaultConfig with trustedDomains := td} rc (.word "bash")
      [] [] true
      = .go1 [] false [] := by
    unfold walkStep
    dsimp only
    rw [show (if resolveVariable O "bash" ([] : VarMap) = "" then "bash"
        else resolveVariable O "bash" ([] : VarMap)) = "bash" from rfl]
    rw [show normalizeCommandName "bash" = "bash" from rfl]
    unfold handleCommand
    dsimp only
    rw [hctx]
    rfl
  rw [show pipeTokens host p = .word "curl"
      :: [.word "-sSL", .word (pipeUrl host p), .op "|", .word "bash"] from rfl]
  rw [walkTokens, hs1]
  by_cases ht : hostTrusted host td = true
  · rw [if_pos ht, if_pos ht]
    dsimp only
    rw [walkTokens]
    rw [show walkStep O {defaultConfig with trustedDomains := td} rc (.word "-sSL")
        [.word (pipeUrl host p), .op "|", .word "bash"] [] false
        = .go1 [] false [] from rfl]
    dsimp only
    rw [walkTokens, hs3]
    dsimp only
    rw [walkTokens]
    rw [show walkStep O {defaultConfig with trustedDomains := td} rc (.op "|")
        [.word "bash"] [] false = .go1 [] true [] from rfl]
    dsimp only
    rw [walkTokens, hs5]
    dsimp only
    rw [walkTokens]
    rfl
  · rw [if_neg ht, if_neg ht]

/-- C1.  The analyzer's phase loops consult only the rules carrying a
`phase` marker: `HomographRule` and `CustomRule` declare none, so —
contrary to the claim that all five listed rules are consulted in their
phases — neither ever runs.  A homograph command (`hasHomograph`
detects it) and a command matching a configured custom rule are both
allowed by the analyzer, although the skipped rules would have blocked
them. -/
theorem claim_C1_phase_markers_missing :
    (hasHomograph hgCmd).detected = true
    ∧ (checkDestructive hgOracles defaultConfig hgCmd 0).1 = .ok
    ∧ customScan c1CustomOracles c1CustomCmd c1CustomCfg.customRules
        = some (.block "CUSTOM RULE VIOLATION" "Use goodcmd." none)
    ∧ (checkDestructive c1CustomOracles c1CustomCfg c1CustomCmd 0).1 = .ok := by
  decide

/-- C5.  `CustomRule.check` itself behaves as the claim says (an invalid
pattern is skipped, a matching one yields `CUSTOM RULE VIOLATION` with
the configured suggestion) — but the analyzer never consults the rule,
because `CustomRule` declares no `phase` marker: the command is
allowed. -/
theorem claim_C5_custom_rule_not_consulted :
    customScan c5Oracles c5Cmd c5Cfg.customRules
        = some (.block "CUSTOM RULE VIOLATION" "Use safe-mode." none)
    ∧ (checkDestructive c5Oracles c5Cfg c5Cmd 0).1 = .ok := by
  decide

/-- C6 counterexample.  `repo.git` — whose final component is not `.git`
— is critical in the code (the `endsWith(".git")` test), while the
claim's predicate rejects it. -/
theorem claim_C6_git_suffix_counterexample :
    isCriticalPath "repo.git" = true ∧ claimCriticalC6 "repo.git" = false := by
  decide

/-- C6 amended.  `isCriticalPath` is exactly the disjunction of the
claim's tests over the code's normalization *plus* the two tests the
claim omits: a normalized form ending in `.git`, and a slash-stripped
normalized form in the critical set. -/
theorem claim_C6_critical_path_amended (p : String) :
    isCriticalPath p = criticalAmendedC6 p := by
  have key : ∀ a b c : Bool,
      (if a then true else if b then true else if c then true else false)
        = (a || b || c) := by decide
  simp only [isCriticalPath, criticalAmendedC6]
  generalize cpNormalize p = n
  rw [key]
  simp only [Bool.or_assoc]

/-- C7 counterexample (spec-modelled shell-context lookup).  With `dd`
aliased to a body referencing `rm` and blocklist `{rm}`, `dd myfile` is
blocked (`SHELL CONTEXT OVERRIDE DETECTED`); adding `dd` itself to the
blocklist disables that check, and `dd` without `of=` passes every other
check — the command becomes allowed. -/
theorem claim_C7_blocklist_addition_unblocks :
    (checkDestructive c7Oracles c7Cfg "dd myfile" 0).1.blockedB = true
    ∧ (checkDestructive c7Oracles { c7Cfg with blocked := "dd" :: c7Cfg.blocked }
        "dd myfile" 0).1 = .ok := by
  decide

/-- C7 (amended): with an empty shell-context snapshot — i.e. with the
override check, whose `!blocked.has(resolvedCmd)` guard makes the full
analyzer non-monotone, out of play — adding a name to `Config.blocked`
never turns a blocked decision into an allowed one on the same command. -/
theorem claim_C7_blocklist_monotone_amended :
    ∀ (O : Oracles) (cfg : Config) (n : String) (cmd : String) (d : Nat),
      O.shellCtx = emptyShellCtx →
      (checkDestructive O cfg cmd d).1.blockedB = true →
      (checkDestructive O {cfg with blocked := n :: cfg.blocked} cmd d).1.blockedB = true := by
  intro O cfg n cmd d hsc h
  cases h2 : (checkDestructive O {cfg with blocked := n :: cfg.blocked} cmd d).1.blockedB
  · have hmono : (checkDestructive O cfg cmd d).1.blockedB = false :=
      analyzeFuel_mono O cfg n hsc (cfg.maxSubshellDepth + 1 - d + 1) cmd d h2
    rw [h] at hmono
    exact Bool.noConfusion hmono
  · rfl

/-- Witness for the C7 amendment: `rm /etc` under a quiet snapshot is
blocked with blocklist `{rm}` and stays blocked after adding `dd`. -/
theorem claim_C7_blocklist_monotone_amended_witness :
    c7WitnessOracles.shellCtx = emptyShellCtx ∧
    (checkDestructive c7WitnessOracles c7Cfg "rm /etc" 0).1.blockedB = true ∧
    (checkDestructive c7WitnessOracles {c7Cfg with blocked := "dd" :: c7Cfg.blocked}
        "rm /etc" 0).1.blockedB = true :=
  ⟨rfl, by decide,
   claim_C7_blocklist_monotone_amended c7WitnessOracles c7Cfg "dd" "rm /etc" 0 rfl (by decide)⟩

/-- C4 counterexample.  With `maxSubshellDepth = 1`, a command with three
sibling `bash -c` stages triggers three recursive analyses — more than
`maxSubshellDepth + 1 = 2` — while still being allowed. -/
theorem claim_C4_recursion_count_counterexample :
    (checkDestructive c4Oracles c4Cfg c4Cmd 0).2.length = 3
    ∧ c4Cfg.maxSubshellDepth + 1 = 2
    ∧ ¬((checkDestructive c4Oracles c4Cfg c4Cmd 0).2.length
        ≤ c4Cfg.maxSubshellDepth + 1)
    ∧ (checkDestructive c4Oracles c4Cfg c4Cmd 0).1 = .ok := by
  decide

/-- C4 (amended): recursive analysis of subshell bodies is depth-bounded:
a call with depth greater than `Config.maxSubshellDepth` immediately
returns the `SUBSHELL DEPTH LIMIT EXCEEDED` decision without recording
any recursion and without running any rule, and every recursion edge the
analysis performs raises the depth by exactly 1 from a caller depth
between the starting depth and `maxSubshellDepth` — so every recursive
analysis starts at depth at most `maxSubshellDepth + 1` (the claimed
bound on the total *number* of recursive analyses is refuted
separately). -/
theorem claim_C4_depth_amended :
    (∀ (O : Oracles) (cfg : Config) (cmd : String) (d : Nat),
        d > cfg.maxSubshellDepth →
          checkDestructive O cfg cmd d = (depthBlock cfg.maxSubshellDepth, [])) ∧
    (∀ (O : Oracles) (cfg : Config) (cmd : String) (d : Nat),
        ∀ e ∈ (checkDestructive O cfg cmd d).2,
          e.2 = e.1 + 1 ∧ d ≤ e.1 ∧ e.2 ≤ cfg.maxSubshellDepth + 1) := by
  constructor
  · intro O cfg cmd d hd
    unfold checkDestructive
    rw [analyzeFuel, if_pos hd]
  · intro O cfg cmd d e he
    have h := analyzeFuel_ghost O cfg (cfg.maxSubshellDepth + 1 - d + 1) cmd d e he
    exact ⟨h.1, h.2.1, by omega⟩

/-- Witness for the C4 amendment: at depth 6 under `maxSubshellDepth = 1`
the analyzer returns the depth block at once, and the concrete recursion
edge `(0, 1)` recorded for the C4 command satisfies the edge bounds. -/
theorem claim_C4_depth_amended_witness :
    (6 > c4Cfg.maxSubshellDepth ∧
      checkDestructive c4Oracles c4Cfg c4Cmd 6
        = (depthBlock c4Cfg.maxSubshellDepth, [])) ∧
    ((0, 1) ∈ (checkDestructive c4Oracles c4Cfg c4Cmd 0).2 ∧
      (((0, 1) : Nat × Nat).2 = ((0, 1) : Nat × Nat).1 + 1 ∧
        0 ≤ ((0, 1) : Nat × Nat).1 ∧
        ((0, 1) : Nat × Nat).2 ≤ c4Cfg.maxSubshellDepth + 1)) :=
  ⟨⟨by decide, claim_C4_depth_amended.1 c4Oracles c4Cfg c4Cmd 6 (by decide)⟩,
   ⟨by decide, claim_C4_depth_amended.2 c4Oracles c4Cfg c4Cmd 0 (0, 1) (by decide)⟩⟩

/-- The ESC-`[` pattern does not occur in an all-`'a'` character list. -/
theorem containsSub_esc_of_all_a :
    ∀ l : List Char, (∀ c ∈ l, c = 'a') →
      containsSub l [Char.ofNat 0x1b, '['] = false := by
  intro l
  induction l with
  | nil => intro _; rfl
  | cons c cs ih =>
    intro h
    have hc : c = 'a' := h c (by simp)
    subst hc
    show (listStartsWith [Char.ofNat 0x1b, '['] ('a' :: cs)
      || containsSub cs [Char.ofNat 0x1b, '[']) = false
    rw [ih (fun x hx => h x (by simp [hx]))]
    rw [show listStartsWith [Char.ofNat 0x1b, '['] ('a' :: cs)
        = (decide ((Char.ofNat 0x1b : Char) = 'a') && listStartsWith ['['] cs) from rfl]
    rw [show decide ((Char.ofNat 0x1b : Char) = 'a') = false from by decide]
    rfl

/-- An all-`'a'` character list has no hidden characters. -/
theorem any_hidden_all_a :
    ∀ l : List Char, (∀ c ∈ l, c = 'a') → l.any isHiddenChar = false := by
  intro l
  induction l with
  | nil => intro _; rfl
  | cons c cs ih =>
    intro h
    have hc : c = 'a' := h c (by simp)
    subst hc
    rw [List.any_cons]
    rw [ih (fun x hx => h x (by simp [hx]))]
    rw [show isHiddenChar 'a' = false from by decide]
    rfl

/-- The C3 witness command is longer than the input bound. -/
theorem c3LongCmd_len : c3LongCmd.length > MAX_INPUT_LENGTH := by
  have hl : c3LongCmd.length = 10001 := by
    show c3LongCmd.data.length = 10001
    rw [show c3LongCmd.data = List.replicate 10001 'a' from rfl, List.length_replicate]
  rw [hl]
  norm_num [MAX_INPUT_LENGTH]

/-- The terminal-injection validator passes the C3 witness command. -/
theorem c3LongCmd_ti : checkTerminalInjection c3LongCmd = ⟨false, none⟩ := by
  have hall : ∀ c ∈ c3LongCmd.data, c = 'a' := by
    rw [show c3LongCmd.data = List.replicate 10001 'a' from rfl]
    intro c hc
    exact List.eq_of_mem_replicate hc
  unfold checkTerminalInjection
  rw [containsSub_esc_of_all_a _ hall, any_hidden_all_a _ hall]
  rfl

/-- C3 (amended): over-long input fails closed — every guarded regex test
returns false and the analyzer blocks — but the blocking reason is
`COMMAND TOO LONG` only when the terminal-injection validator (which runs
first) passes and the depth guard does not fire. -/
theorem claim_C3_length_guard_amended :
    (∀ (test : String → Bool) (input : String),
        input.length > MAX_INPUT_LENGTH → safeRegexTest test input = false) ∧
    (∀ (O : Oracles) (cfg : Config) (cmd : String) (d : Nat),
        cmd.length > MAX_INPUT_LENGTH →
        (checkDestructive O cfg cmd d).1.blockedB = true) ∧
    (∀ (O : Oracles) (cfg : Config) (cmd : String) (d : Nat),
        cmd.length > MAX_INPUT_LENGTH → ¬ d > cfg.maxSubshellDepth →
        checkTerminalInjection cmd = ⟨false, none⟩ →
        (checkDestructive O cfg cmd d).1
          = .block "COMMAND TOO LONG"
              "The command exceeds the analysis limit. Inspect manually or simplify."
              (some "RawThreatRule")) := by
  refine ⟨?_, ?_, ?_⟩
  · intro test input h
    unfold safeRegexTest
    rw [if_pos h]
  · intro O cfg cmd d hlen
    rw [checkDestructive_eval]
    by_cases hd : d > cfg.maxSubshellDepth
    · rw [if_pos hd]
      rfl
    · rw [if_neg hd]
      rcases hti : checkTerminalInjection cmd with ⟨det, ro⟩
      have hpre : ∃ b, preResult O cmd = some b ∧ b.blockedB = true := by
        unfold preResult
        dsimp only
        rw [hti]
        dsimp only
        cases det
        · rw [if_neg (by exact fun hc => Bool.noConfusion hc), if_pos hlen]
          exact ⟨_, rfl, rfl⟩
        · rw [if_pos rfl]
          exact ⟨_, rfl, rfl⟩
      obtain ⟨b, hb, hbb⟩ := hpre
      rw [hb]
      exact hbb
  · intro O cfg cmd d hlen hd hti
    rw [checkDestructive_eval, if_neg hd]
    have hpre : preResult O cmd
        = some (.block "COMMAND TOO LONG"
            "The command exceeds the analysis limit. Inspect manually or simplify."
            (some "RawThreatRule")) := by
      unfold preResult
      dsimp only
      rw [hti]
      dsimp only
      rw [if_neg (by exact fun hc => Bool.noConfusion hc), if_pos hlen]
    rw [hpre]

/-- Witness for the C3 amendment at the 10001-character command of plain
`a`s: the guard rejects every pattern, the analyzer blocks, and — since
the terminal-injection validator passes it — the reason is
`COMMAND TOO LONG` annotated `RawThreatRule`. -/
theorem claim_C3_length_guard_amended_witness :
    (c3LongCmd.length > MAX_INPUT_LENGTH
      ∧ safeRegexTest (fun _ => true) c3LongCmd = false) ∧
    (checkDestructive (quietOracles []) defaultConfig c3LongCmd 0).1.blockedB = true ∧
    (¬ (0 : Nat) > defaultConfig.maxSubshellDepth
      ∧ checkTerminalInjection c3LongCmd = ⟨false, none⟩
      ∧ (checkDestructive (quietOracles []) defaultConfig c3LongCmd 0).1
          = .block "COMMAND TOO LONG"
              "The command exceeds the analysis limit. Inspect manually or simplify."
              (some "RawThreatRule")) :=
  ⟨⟨c3LongCmd_len,
    claim_C3_length_guard_amended.1 (fun _ => true) c3LongCmd c3LongCmd_len⟩,
   claim_C3_length_guard_amended.2.1 (quietOracles []) defaultConfig c3LongCmd 0 c3LongCmd_len,
   ⟨by decide, c3LongCmd_ti,
    claim_C3_length_guard_amended.2.2 (quietOracles []) defaultConfig c3LongCmd 0
      c3LongCmd_len (by decide) c3LongCmd_ti⟩⟩

/-- C3 counterexample.  An over-length command containing `ESC [` is
blocked by `TerminalInjectionRule` — which runs before the length guard —
so the reason is `TERMINAL INJECTION DETECTED`, not `COMMAND TOO LONG`. -/
theorem claim_C3_reason_counterexample :
    c3InjCmd.length > MAX_INPUT_LENGTH
    ∧ (checkDestructive (quietOracles []) defaultConfig c3InjCmd 0).1
        = .block "TERMINAL INJECTION DETECTED"
            "Command contains ANSI escape sequences or hidden characters that can manipulate terminal output."
            (some "TerminalInjectionRule")
    ∧ "TERMINAL INJECTION DETECTED" ≠ "COMMAND TOO LONG" := by
  have hdata : c3InjCmd.data = Char.ofNat 0x1b :: '[' :: List.replicate 9999 'a' := rfl
  have hone : containsSub (Char.ofNat 0x1b :: '[' :: List.replicate 9999 'a')
      [Char.ofNat 0x1b, '[']
      = (listStartsWith [Char.ofNat 0x1b, '[']
          (Char.ofNat 0x1b :: '[' :: List.replicate 9999 'a')
        || containsSub ('[' :: List.replicate 9999 'a') [Char.ofNat 0x1b, '[']) := rfl
  have hstart : listStartsWith [Char.ofNat 0x1b, '[']
      (Char.ofNat 0x1b :: '[' :: List.replicate 9999 'a') = true := rfl
  have hcontains : containsSub c3InjCmd.data [Char.ofNat 0x1b, '['] = true := by
    rw [hdata, hone, hstart, Bool.true_or]
  have hti : checkTerminalInjection c3InjCmd = ⟨true, some "TERMINAL INJECTION DETECTED"⟩ := by
    unfold checkTerminalInjection
    rw [hcontains]
    simp
  refine ⟨?_, ?_, by decide⟩
  · have hlen : c3InjCmd.length = c3InjCmd.data.length := rfl
    rw [hlen, hdata, List.length_cons, List.length_cons, List.length_replicate]
    norm_num [MAX_INPUT_LENGTH]
  · rw [checkDestructive_step _ _ _ _ (by decide),
      runRules_pre_ti _ _ _ _ _ _ hti]

/-- C9 counterexample.  `CustomRule.check` returns a blocking decision
whose suggestion is the configured suggestion — here the empty string —
violating the claimed well-formedness of every rule-produced decision. -/
theorem claim_C9_empty_suggestion_rule :
    customRule.check c9Oracles c9Ctx
      = (some (.block "CUSTOM RULE VIOLATION" "" none), [])
    ∧ (BlockResult.block "CUSTOM RULE VIOLATION" "" none).blockedB = true
    ∧ (BlockResult.block "CUSTOM RULE VIOLATION" "" none).suggestionS = "" := by
  decide

/-- C9 (amended): the analyzer façade itself always returns a well-formed
decision — every blocking decision it produces carries a nonempty reason
and a nonempty suggestion — because the only rule able to emit an empty
suggestion, `CustomRule`, carries no phase marker and is never consulted;
and `CustomRule.check`'s loop is well-formed exactly when every configured
custom suggestion is nonempty. -/
theorem claim_C9_wellformed_amended :
    (∀ (O : Oracles) (cfg : Config) (cmd : String) (d : Nat),
        resultWF (checkDestructive O cfg cmd d).1) ∧
    (∀ (O : Oracles) (cmd : String) (rcs : List CustomRuleCfg),
        (∀ r ∈ rcs, r.suggestion ≠ "") → optWF (customScan O cmd rcs)) :=
  ⟨fun O cfg cmd d => analyzeFuel_wf O cfg _ cmd d,
   fun O cmd rcs h => customScan_wf O cmd rcs h⟩

/-- Witness for the C9 amendment: the façade's decision on a concretely
blocked command is well-formed, and the custom loop is well-formed over a
concrete rule list with a nonempty suggestion. -/
theorem claim_C9_wellformed_amended_witness :
    resultWF (checkDestructive c7WitnessOracles defaultConfig "rm /etc" 0).1 ∧
    ((∀ r ∈ c9GoodRules, r.suggestion ≠ "") ∧
      optWF (customScan c9Oracles "aaa" c9GoodRules)) :=
  ⟨claim_C9_wellformed_amended.1 c7WitnessOracles defaultConfig "rm /etc" 0,
   ⟨by decide, claim_C9_wellformed_amended.2 c9Oracles "aaa" c9GoodRules (by decide)⟩⟩

/-- C10 counterexample.  For two targets the implementation issues two
`git status` subprocess invocations, not the single batched one the
claim asserts. -/
theorem claim_C10_git_spawn_counterexample :
    (hasUncommittedChanges (quietOracles []) ["a", "b"]).2 = 2
    ∧ (2 : Nat) ≠ 1 := by
  decide

/-- The subprocess count of the `hasUncommittedChanges` loop: one per
non-flag file. -/
theorem hucLoop_count (O : Oracles) :
    ∀ files : List String,
      (hucLoop O files).2 = (files.filter (fun f => !(strStarts f "-"))).length := by
  intro files
  induction files with
  | nil => rfl
  | cons f rest ih =>
    simp only [hucLoop, List.filter]
    cases h : strStarts f "-" <;> simp [h, ih] <;> split <;> split <;> rfl

/-- C10 amended.  The implementation issues exactly one `git status`
subprocess invocation *per non-flag target* (so `n` invocations for `n`
files), not one batched query. -/
theorem claim_C10_git_spawn_per_file (O : Oracles) (files : List String) :
    (hasUncommittedChanges O files).2
      = (files.filter (fun f => !(strStarts f "-"))).length := by
  unfold hasUncommittedChanges
  by_cases h : files.isEmpty
  · simp only [h, if_pos]
    cases files with
    | nil => rfl
    | cons a l => simp [List.isEmpty] at h
  · simp only [h, if_neg, Bool.false_eq_true, not_false_eq_true, hucLoop_count]

/-- C8.  `checkBlockedCommand` with resolved name `dd` blocks exactly
when some argument starts (case-insensitively) with `of=`; the result
does not depend on the blocklist, the threshold, or the git oracle
(the generic checks are skipped), even though `dd` is in the default
blocked set. -/
theorem claim_C8_dd_blocks_iff_of (O O2 : Oracles) (args : List String)
    (blocked blocked2 : List String) (threshold threshold2 : Nat) :
    ((checkBlockedCommand O "dd" args blocked threshold).isSome = true
      ↔ args.any (fun arg => strStarts (strLower arg) "of=") = true)
    ∧ checkBlockedCommand O "dd" args blocked threshold
        = checkBlockedCommand O2 "dd" args blocked2 threshold2
    ∧ DEFAULT_BLOCKED.contains "dd" = true := by
  have hdd : ∀ (O3 : Oracles) (b3 : List String) (t3 : Nat),
      checkBlockedCommand O3 "dd" args b3 t3
        = (if args.any (fun arg => strStarts (strLower arg) "of=") then
            some (.block "Destructive dd detected" "be careful with dd of=" none)
          else none) := fun _ _ _ => rfl
  refine ⟨?_, ?_, by decide⟩
  · rw [hdd]
    cases h : args.any (fun arg => strStarts (strLower arg) "of=") <;> simp [h]
  · rw [hdd, hdd]

/-- C2 counterexample.  The claim quantifies over every command of the
shape `curl -sSL https://<host>/<p> | bash`, but for the path
`install.sed` — squarely inside that shape — the pre-phase `sedToShell`
raw-threat regex matches the raw string (`.sed | bash`), so the analyzer
blocks with `SED-PIPE-TO-SHELL DETECTED` although the host is trusted:
the claimed "allowed iff trusted" equivalence fails, and the blocking
reason is not `PIPE-TO-SHELL DETECTED` either. -/
theorem claim_C2_sed_pipe_counterexample :
    hostTrusted "example.com" ["example.com"] = true
    ∧ pathOk "install.sed" = true
    ∧ (checkDestructive c2SedOracles
        {defaultConfig with trustedDomains := ["example.com"]} c2SedCmd 0).1
      = .block "SED-PIPE-TO-SHELL DETECTED"
          "Piping sed output to a shell can be dangerous. Review the command carefully."
          (some "RawThreatRule") := by
  decide

/-- C2 (amended).  Trusted-domain invariant, restricted to commands the
pre phase lets through: for every host and path over the simple
charsets, every trusted-domain list, and every oracle that tokenizes
`curl -sSL https://<host>/<p> | bash` faithfully, on which no raw-threat
regex fires (paths mentioning `sed`, `awk`, `openssl` or `tar` make one
fire, as the counterexample shows) and whose deep-subshell count stays
below 4, with an empty shell-context snapshot, the analyzer allows the
command exactly when `<host>` equals, or is a subdomain of, an entry of
`Config.trustedDomains`; otherwise it blocks with reason
`PIPE-TO-SHELL DETECTED`, annotated with `CoreAstRule`. -/
theorem claim_C2_trusted_domain_amended (O : Oracles) (td : List String)
    (host p : String)
    (hh : hostOk host = true) (hp : pathOk p = true)
    (hlen : (pipeCmd host p).length ≤ MAX_INPUT_LENGTH)
    (hparse : O.parse (pipeCmd host p) = some (pipeTokens host p))
    (hsc : O.shellCtx = emptyShellCtx)
    (hpat : ∀ e ∈ rawThreatPatterns, O.ptest e.pat (pipeCmd host p) = false)
    (hsub : O.subshellCMatches (pipeCmd host p) < 4) :
    ((checkDestructive O {defaultConfig with trustedDomains := td}
        (pipeCmd host p) 0).1 = .ok
      ↔ hostTrusted host td = true)
    ∧ (hostTrusted host td = false →
        (checkDestructive O {defaultConfig with trustedDomains := td}
            (pipeCmd host p) 0).1
          = .block "PIPE-TO-SHELL DETECTED"
              "Executing remote scripts directly via pipe is dangerous. Download and review the script first."
              (some "CoreAstRule")) := by
  have hpre : preResult O (pipeCmd host p) = none := by
    unfold preResult
    dsimp only
    rw [c2PipeCmdTI host p hh hp]
    dsimp only
    rw [if_neg Bool.false_ne_true]
    rw [if_neg (by omega : ¬ (pipeCmd host p).length > MAX_INPUT_LENGTH)]
    have h4 : ¬ ((decide (O.subshellCMatches (pipeCmd host p) ≥ 4)
        && O.destructiveVerb (pipeCmd host p)) = true) := by
      simp only [Bool.and_eq_true, decide_eq_true_eq]
      intro hcon
      exact absurd hcon.1 (by omega)
    rw [if_neg h4]
    rw [rtScan_none_of O (pipeCmd host p) rawThreatPatterns hpat]
  have hmain : checkDestructive O {defaultConfig with trustedDomains := td}
      (pipeCmd host p) 0
      = (if hostTrusted host td = true then (BlockResult.ok, [])
         else (.block "PIPE-TO-SHELL DETECTED"
            "Executing remote scripts directly via pipe is dangerous. Download and review the script first."
            (some "CoreAstRule"), [])) := by
    rw [checkDestructive_eval]
    rw [if_neg (Nat.not_lt_zero _)]
    rw [hpre]
    dsimp only
    rw [hparse]
    dsimp only
    rw [c2Walk O td host p _ hh hp hsc]
    by_cases ht : hostTrusted host td = true
    · rw [if_pos ht, if_pos ht]
    · rw [if_neg ht, if_neg ht]
      rfl
  refine ⟨⟨fun hok => ?_, fun ht => ?_⟩, fun ht => ?_⟩
  · by_cases ht : hostTrusted host td = true
    · exact ht
    · rw [hmain, if_neg ht] at hok
      exact BlockResult.noConfusion hok
  · rw [hmain, if_pos ht]
  · have ht' : ¬ hostTrusted host td = true := by
      rw [ht]; exact Bool.false_ne_true
    rw [hmain, if_neg ht']

/-- Witness for the C2 amendment, at host `example.com`, path `i.sh` and
trusted list `["example.com"]` under the table-tokenizer oracle. -/
theorem claim_C2_trusted_domain_amended_witness :
    ((checkDestructive c2Oracles {defaultConfig with trustedDomains := ["example.com"]}
        (pipeCmd "example.com" "i.sh") 0).1 = .ok
      ↔ hostTrusted "example.com" ["example.com"] = true)
    ∧ (hostTrusted "example.com" ["example.com"] = false →
        (checkDestructive c2Oracles {defaultConfig with trustedDomains := ["example.com"]}
            (pipeCmd "example.com" "i.sh") 0).1
          = .block "PIPE-TO-SHELL DETECTED"
              "Executing remote scripts directly via pipe is dangerous. Download and review the script first."
              (some "CoreAstRule")) :=
  claim_C2_trusted_domain_amended c2Oracles ["example.com"] "example.com" "i.sh"
    (by decide) (by decide) (by decide) rfl rfl (fun _ _ => rfl) (by decide)

end ShellShield
